import Mathlib

/-!
# go-matrix-routes: the CSV matrix processor and its HTTP dispatcher

A shallow embedding of `processor/matrix_processor.go`, `handlers/file_handlers.go`
and `main.go`, followed by theorems about it.

Modelling conventions
* A Go `string` is a list of characters (`GoString`).
* A Go `int` is a Lean `Int`; the platform width (32 or 64 bits) is a parameter
  (`Platform`), and arithmetic that can overflow wraps explicitly (`wrapInt`).
* A Go function returning `(value, error)` returns a pair of options, so that
  "no value on failure" is a property of the code and not of the type.
* A run-time panic (index out of range, nil dereference) is the `none` result of
  an `Option`-valued operation.
-/

namespace MatrixRoutes

/-! ## Go base types -/

/-- A Go string, as the list of its characters. -/
abbrev GoString := List Char

/-- The two widths a Go `int` can have. -/
inductive Platform where
  | bits32
  | bits64
  deriving DecidableEq, Repr

/-- Width in bits of `int` (`strconv.IntSize`). -/
def Platform.intSize : Platform → Nat
  | .bits32 => 32
  | .bits64 => 64

/-- Smallest value of a Go `int`. -/
def minInt (p : Platform) : Int := -((2 : Int) ^ (p.intSize - 1))

/-- Largest value of a Go `int`. -/
def maxInt (p : Platform) : Int := (2 : Int) ^ (p.intSize - 1) - 1

/-- Membership of an integer in the range of a Go `int`. -/
def InIntRange (p : Platform) (x : Int) : Prop := minInt p ≤ x ∧ x ≤ maxInt p

instance (p : Platform) (x : Int) : Decidable (InIntRange p x) := by
  unfold InIntRange; infer_instance

/-- Two-complement wrap-around of an exact integer result to the width of `int`. -/
def wrapInt (p : Platform) (x : Int) : Int :=
  (x + (2 : Int) ^ (p.intSize - 1)) % (2 : Int) ^ p.intSize - (2 : Int) ^ (p.intSize - 1)

/-- Go `a + b` on `int`. -/
def addInt (p : Platform) (a b : Int) : Int := wrapInt p (a + b)

/-- Go `a * b` on `int`. -/
def mulInt (p : Platform) (a b : Int) : Int := wrapInt p (a * b)

/-! ## Standard-library functions used by the program -/

/-- Go `strconv.Itoa`: the decimal rendering of an integer. -/
def Itoa (x : Int) : GoString :=
  if x < 0 then '-' :: Nat.toDigits 10 x.natAbs else Nat.toDigits 10 x.toNat

/-- Go `strings.Join`. -/
def Join : List GoString → GoString → GoString
  | [], _ => []
  | [a], _ => a
  | a :: b :: rest, sep => a ++ sep ++ Join (b :: rest) sep

/-- Go `unicode.IsSpace`. -/
def isSpace (c : Char) : Bool :=
  decide (c.toNat ∈ [0x09, 0x0A, 0x0B, 0x0C, 0x0D, 0x20, 0x85, 0xA0, 0x1680,
    0x2028, 0x2029, 0x202F, 0x205F, 0x3000]) || decide (0x2000 ≤ c.toNat ∧ c.toNat ≤ 0x200A)

/-- Go `strings.TrimSpace`: leading and trailing white space removed. -/
def TrimSpace (s : GoString) : GoString :=
  ((s.dropWhile isSpace).reverse.dropWhile isSpace).reverse

/-- The digit loop of Go `strconv.ParseUint` in base 10: `none` on a byte that is
not a decimal digit, otherwise the accumulated value. -/
def parseUint : GoString → Nat → Option Nat
  | [], n => some n
  | c :: cs, n =>
    if 48 ≤ c.toNat ∧ c.toNat ≤ 57 then parseUint cs (n * 10 + (c.toNat - 48)) else none

/-- Go `strconv.Atoi` (`ParseInt(s, 10, 0)`): `none` stands for a non-nil error
(syntax or range). -/
def Atoi (p : Platform) (s : GoString) : Option Int :=
  if s = [] then none
  else
    let neg : Bool := decide (s.head? = some '-')
    let body := if s.head? = some '+' ∨ s.head? = some '-' then s.tail else s
    if body = [] then none
    else
      match parseUint body 0 with
      | none => none
      | some un =>
        let cutoff : Nat := 2 ^ (p.intSize - 1)
        if neg = false ∧ cutoff ≤ un then none
        else if neg = true ∧ cutoff < un then none
        else some (if neg then -(un : Int) else (un : Int))

/-! ## processor/matrix_processor.go -/

/-- The struct `MatrixProcessor`. -/
structure MatrixProcessor where
  matrix : List (List Int)
  deriving DecidableEq, Repr

/-- The inner loop of `NewMatrixProcessor` over the fields of row `i`, from column `j` on. -/
def parseFields (p : Platform) (i : Nat) : Nat → List GoString → Except GoString (List Int)
  | _, [] => .ok []
  | j, val :: rest =>
    match Atoi p (TrimSpace val) with
    | none =>
      .error ("invalid integer at position [".toList ++ Itoa i ++ ",".toList ++ Itoa j
        ++ "]: ".toList ++ val)
    | some num =>
      match parseFields p i (j + 1) rest with
      | .error e => .error e
      | .ok nums => .ok (num :: nums)

/-- The outer loop of `NewMatrixProcessor` over the rows, from row `i` on. -/
def parseRows (p : Platform) (cols : Nat) : Nat → List (List GoString) →
    Except GoString (List (List Int))
  | _, [] => .ok []
  | i, record :: rest =>
    if record.length ≠ cols then
      .error ("inconsistent row length at row ".toList ++ Itoa i)
    else
      match parseFields p i 0 record with
      | .error e => .error e
      | .ok row =>
        match parseRows p cols (i + 1) rest with
        | .error e => .error e
        | .ok rows => .ok (row :: rows)

/-- The constructor `NewMatrixProcessor`: the pair (processor, error) it returns. -/
def NewMatrixProcessor (p : Platform) (records : List (List GoString)) :
    Option MatrixProcessor × Option GoString :=
  match records with
  | [] => (none, some "empty matrix provided".toList)
  | first :: _ =>
    let rows := records.length
    let cols := first.length
    if rows ≠ cols then
      (none, some ("matrix must be square, got ".toList ++ Itoa rows ++ "x".toList ++ Itoa cols))
    else
      match parseRows p cols 0 records with
      | .error e => (none, some e)
      | .ok matrix => (some ⟨matrix⟩, none)

/-- The rendering loop shared by `Echo` and `Invert`: `i` is the loop index and
`result` the contents of the string builder. -/
def writeRows : Nat → List (List Int) → GoString → GoString
  | _, [], result => result
  | i, row :: rest, result =>
    let result := if i > 0 then result ++ "\n".toList else result
    writeRows (i + 1) rest (result ++ Join (row.map Itoa) ",".toList)

/-- The method `Echo`. -/
def MatrixProcessor.Echo (mp : MatrixProcessor) : GoString :=
  writeRows 0 mp.matrix []

/-- Evaluation of a list of index expressions, any of which may panic. -/
def collect {α : Type} : List (Option α) → Option (List α)
  | [] => some []
  | none :: _ => none
  | some a :: rest =>
    match collect rest with
    | none => none
    | some as => some (a :: as)

/-- The matrix `inverted` that `Invert` builds: `inverted[i][j] = mp.matrix[j][i]`,
`none` when an index is out of range. -/
def invertedMatrix (matrix : List (List Int)) : Option (List (List Int)) :=
  let size := matrix.length
  collect ((List.range size).map fun i =>
    collect ((List.range size).map fun j =>
      match matrix[j]? with
      | none => none
      | some row => row[i]?))

/-- The method `Invert`; `none` is a panic. -/
def MatrixProcessor.Invert (mp : MatrixProcessor) : Option GoString :=
  match invertedMatrix mp.matrix with
  | none => none
  | some inverted => some (writeRows 0 inverted [])

/-- The method `Flatten`. -/
def MatrixProcessor.Flatten (mp : MatrixProcessor) : GoString :=
  let nums := mp.matrix.foldl (fun nums row => row.foldl (fun nums num => nums ++ [Itoa num]) nums) []
  Join nums ",".toList

/-- The method `Sum`. -/
def MatrixProcessor.Sum (p : Platform) (mp : MatrixProcessor) : Int :=
  mp.matrix.foldl (fun sum row => row.foldl (fun sum num => addInt p sum num) sum) 0

/-- The method `Multiply`. -/
def MatrixProcessor.Multiply (p : Platform) (mp : MatrixProcessor) : Int :=
  mp.matrix.foldl (fun product row => row.foldl (fun product num => mulInt p product num) product) 1

/-! ## Reading a response body back (the parse-back of the round-trip claims) -/

/-- Split of a string at every occurrence of the character `sep` (Go `strings.Split`
with a one-character separator). -/
def splitAt (sep : Char) : GoString → List GoString
  | [] => [[]]
  | c :: cs =>
    if c = sep then [] :: splitAt sep cs
    else
      match splitAt sep cs with
      | [] => [[c]]
      | h :: t => (c :: h) :: t

/-- Records of a text: split at newlines, each line split at commas. -/
def splitRecords (s : GoString) : List (List GoString) :=
  (splitAt '\n' s).map (splitAt ',')

/-! ## Upload validation (processor/matrix_processor.go) -/

/-- The fields of `multipart.FileHeader` the program reads. -/
structure FileHeader where
  Filename : GoString
  Size : Int
  deriving DecidableEq, Repr

/-- The error type `ValidationError`. -/
structure ValidationError where
  Message : GoString
  deriving DecidableEq, Repr

/-- Go `strings.ToLower`, on the ASCII letters; other characters are left as they are.
No character outside ASCII lower-cases to `.`, `c`, `s` or `v`, so whether the result
ends in ".csv" is the same as for the full Unicode mapping. -/
def ToLower (s : GoString) : GoString := s.map Char.toLower

/-- Go `strings.HasSuffix`. -/
def HasSuffix (s suffix : GoString) : Bool := suffix.isSuffixOf s

/-- Go `strings.HasPrefix`. -/
def HasPrefix (s pre : GoString) : Bool := pre.isPrefixOf s

/-- The function `ValidateFileUpload`; `none` is the nil error, and a nil `header`
is `none`. The parameter `file` is not read. -/
def ValidateFileUpload (_file : GoString) (header : Option FileHeader) : Option ValidationError :=
  match header with
  | none => some ⟨"No file was uploaded".toList⟩
  | some h =>
    if h.Size > 5 * 1024 * 1024 then
      some ⟨"File size exceeds maximum limit of 5MB".toList⟩
    else if ¬ HasSuffix (ToLower h.Filename) ".csv".toList then
      some ⟨"Invalid file format. Only CSV files are accepted".toList⟩
    else none

/-! ## The HTTP layer (net/http as the program uses it) -/

/-- A header map. -/
abbrev Header := List (GoString × GoString)

/-- Go `Header.Set`. -/
def Header.set (h : Header) (key value : GoString) : Header :=
  (key, value) :: h.filter (fun kv => kv.1 ≠ key)

/-- Go `Header.Del`. -/
def Header.del (h : Header) (key : GoString) : Header :=
  h.filter (fun kv => kv.1 ≠ key)

/-- Go `Header.Get`; the empty string when the key is absent. -/
def Header.get (h : Header) (key : GoString) : GoString :=
  match h.lookup key with
  | none => []
  | some v => v

/-- State of an `http.ResponseWriter`: the header map the handler edits, whether the
status line has been sent, the status and headers that were sent, and the body written. -/
structure ResponseWriter where
  header : Header
  wroteHeader : Bool
  status : Nat
  sentHeader : Header
  body : GoString
  deriving DecidableEq, Repr

/-- A fresh response writer (nothing written; the status defaults to 200). -/
def ResponseWriter.fresh : ResponseWriter :=
  { header := [], wroteHeader := false, status := 200, sentHeader := [], body := [] }

/-- Go `w.WriteHeader(code)`: only the first call has an effect. -/
def ResponseWriter.WriteHeader (w : ResponseWriter) (code : Nat) : ResponseWriter :=
  if w.wroteHeader then w
  else { w with wroteHeader := true, status := code, sentHeader := w.header }

/-- Go `w.Write(b)`: sends the status line with 200 first when none was sent. -/
def ResponseWriter.Write (w : ResponseWriter) (b : GoString) : ResponseWriter :=
  let w1 := w.WriteHeader 200
  { w1 with body := w1.body ++ b }

/-- Go `w.Header().Set(key, value)`. -/
def ResponseWriter.setHeader (w : ResponseWriter) (key value : GoString) : ResponseWriter :=
  { w with header := w.header.set key value }

/-- The status code the client receives. -/
def ResponseWriter.code (w : ResponseWriter) : Nat :=
  if w.wroteHeader then w.status else 200

/-- Go `http.Error(w, msg, code)`. -/
def httpError (w : ResponseWriter) (msg : GoString) (code : Nat) : ResponseWriter :=
  let w1 := { w with header := w.header.del "Content-Length".toList }
  let w2 := w1.setHeader "Content-Type".toList "text/plain; charset=utf-8".toList
  let w3 := w2.setHeader "X-Content-Type-Options".toList "nosniff".toList
  (w3.WriteHeader code).Write (msg ++ "\n".toList)

/-- What a handler reads of an `http.Request`: the method, the `Content-Type`
header, and the result of `r.FormFile("file")` (the contents of the file and its
header, or an error text). -/
structure Request where
  Method : GoString
  ContentType : GoString
  FormFile : Except GoString (GoString × Option FileHeader)

/-- How a handler call ends: the state of the response writer, and whether the call
ended in a panic instead of returning. -/
structure Outcome where
  w : ResponseWriter
  panicked : Bool
  deriving DecidableEq, Repr

/-- A handler function. -/
abbrev HandlerFunc := ResponseWriter → Request → Outcome

/-- The reader `csv.Reader.ReadAll` with `FieldsPerRecord = -1`, from the contents
of the file to its records or an error text. -/
abbrev CsvReadAll := GoString → Except GoString (List (List GoString))

/-! ## handlers/file_handlers.go -/

/-- The last two statements of `HandleMatrix`: set the content type, write the result. -/
def writeResult (w : ResponseWriter) (result : GoString) : Outcome :=
  ⟨(w.setHeader "Content-Type".toList "text/plain".toList).Write result, false⟩

/-- The `switch operation` of `HandleMatrix` and what follows it. A method call on
the nil processor (`none`) panics. -/
def dispatch (p : Platform) (w : ResponseWriter) (processor : Option MatrixProcessor)
    (operation : GoString) : Outcome :=
  if operation = "echo".toList then
    match processor with
    | none => ⟨w, true⟩
    | some mp => writeResult w mp.Echo
  else if operation = "invert".toList then
    match processor with
    | none => ⟨w, true⟩
    | some mp =>
      match mp.Invert with
      | none => ⟨w, true⟩
      | some result => writeResult w result
  else if operation = "flatten".toList then
    match processor with
    | none => ⟨w, true⟩
    | some mp => writeResult w mp.Flatten
  else if operation = "sum".toList then
    match processor with
    | none => ⟨w, true⟩
    | some mp => writeResult w (Itoa (mp.Sum p))
  else if operation = "multiply".toList then
    match processor with
    | none => ⟨w, true⟩
    | some mp =>
      let product := mp.Multiply p
      let w1 := if product = 0 then
          w.setHeader "Warning".toList "Possible integer overflow detected".toList
        else w
      writeResult w1 (Itoa product)
  else ⟨httpError w "Invalid operation".toList 400, false⟩

/-- The function `HandleMatrix`. -/
def HandleMatrix (p : Platform) (readAll : CsvReadAll) (w : ResponseWriter) (r : Request)
    (operation : GoString) : Outcome :=
  if r.Method ≠ "POST".toList then
    ⟨httpError w "Only POST method is allowed".toList 405, false⟩
  else if ¬ HasPrefix r.ContentType "multipart/form-data".toList then
    ⟨httpError w "Content-Type must be multipart/form-data".toList 400, false⟩
  else
    match r.FormFile with
    | .error err => ⟨httpError w ("Error reading file: ".toList ++ err) 400, false⟩
    | .ok (file, header) =>
      match ValidateFileUpload file header with
      | some err => ⟨httpError w err.Message 400, false⟩
      | none =>
        match readAll file with
        | .error err => ⟨httpError w ("Error parsing CSV: ".toList ++ err) 400, false⟩
        | .ok records =>
          let res := NewMatrixProcessor p records
          let w1 := if res.2 ≠ none then
              httpError w "Internal server error processing matrix".toList 500
            else w
          dispatch p w1 res.1 operation

/-! ## main.go -/

/-- The middleware `withRecovery`: a panic of `next` is recovered and answered
with `http.Error(w, "Internal server error", 500)`. -/
def withRecovery (next : HandlerFunc) : HandlerFunc := fun w r =>
  let out := next w r
  if out.panicked then ⟨httpError out.w "Internal server error".toList 500, false⟩ else out

/-- The routes `setupRoutes` registers, each with its handler. -/
def setupRoutes (p : Platform) (readAll : CsvReadAll) : List (GoString × HandlerFunc) :=
  [ ("/echo".toList, withRecovery fun w r => HandleMatrix p readAll w r "echo".toList),
    ("/invert".toList, withRecovery fun w r => HandleMatrix p readAll w r "invert".toList),
    ("/flatten".toList, withRecovery fun w r => HandleMatrix p readAll w r "flatten".toList),
    ("/sum".toList, withRecovery fun w r => HandleMatrix p readAll w r "sum".toList),
    ("/multiply".toList, withRecovery fun w r => HandleMatrix p readAll w r "multiply".toList) ]

/-- The handler registered for a path, if any. -/
def routeHandler (p : Platform) (readAll : CsvReadAll) (path : GoString) : Option HandlerFunc :=
  (setupRoutes p readAll).lookup path

/-- A plain CSV reader for the examples: records are the lines, fields are split at commas;
the empty text has no record. -/
def plainReadAll : CsvReadAll := fun s =>
  if s = [] then .ok [] else .ok (splitRecords s)

/-- A test request as `createTestRequest` of the test suite builds it. -/
def testRequest (content filename : GoString) : Request :=
  { Method := "POST".toList
    ContentType := "multipart/form-data; boundary=x".toList
    FormFile := .ok (content, some ⟨filename, content.length⟩) }

/-! ## Specification-side notions -/

/-- Positional value of a string of decimal digits. -/
def decimalValue (ds : GoString) : Nat :=
  ds.foldl (fun acc c => acc * 10 + (c.toNat - 48)) 0

/-- The string `s` is a base-10 signed integer of value `v`: an optional sign
followed by one or more decimal digits. -/
def IsBase10Int (s : GoString) (v : Int) : Prop :=
  ∃ ds : GoString, ds ≠ [] ∧ (∀ c ∈ ds, c.isDigit = true) ∧
    ((s = ds ∧ v = (decimalValue ds : Int)) ∨
     (s = '+' :: ds ∧ v = (decimalValue ds : Int)) ∨
     (s = '-' :: ds ∧ v = -(decimalValue ds : Int)))

/-- The line of a row: its cells in decimal, joined by commas. -/
def rowLine (row : List Int) : GoString := Join (row.map Itoa) ",".toList

/-- A record the loop accepts: `cols` fields, each accepted by `Atoi` after trimming. -/
def GoodRecord (p : Platform) (cols : Nat) (r : List GoString) : Prop :=
  r.length = cols ∧ ∀ f ∈ r, ∃ v, Atoi p (TrimSpace f) = some v

/-- The records the specification accepts: non-empty, as many rows as the first row
has fields, every row of that length, and every field, once trimmed, a base-10 signed
integer in the range of `int`. -/
def ValidRecords (p : Platform) (records : List (List GoString)) : Prop :=
  records ≠ [] ∧ records.length = (records.headD []).length ∧
    (∀ row ∈ records, row.length = (records.headD []).length) ∧
    ∀ row ∈ records, ∀ f ∈ row, ∃ v, IsBase10Int (TrimSpace f) v ∧ InIntRange p v

/-- Example records: a non-integer field in row 0 and a short row 1. -/
def raggedAfterBadField : List (List GoString) :=
  [["a".toList, "2".toList], ["3".toList]]

/-- Example records: a decimal integer beyond the 64-bit range at [0,0], then a
field that is no integer at all at [0,1]. -/
def overflowThenLetter : List (List GoString) :=
  [["99999999999999999999".toList, "a".toList], ["1".toList, "2".toList]]

/-- The operation names `HandleMatrix` knows. -/
def knownOperations : List GoString :=
  ["echo".toList, "invert".toList, "flatten".toList, "sum".toList, "multiply".toList]

/-- The paths `setupRoutes` registers. -/
def routePaths : List GoString :=
  ["/echo".toList, "/invert".toList, "/flatten".toList, "/sum".toList, "/multiply".toList]

/-- The cell `M[i][j]` of a matrix, `0` outside it. -/
def cell (M : List (List Int)) (i j : Nat) : Int := (M.getD i []).getD j 0

/-- The transpose of size `n` of a matrix: its cell [i][j] is `M[j][i]`. -/
def transposed (n : Nat) (M : List (List Int)) : List (List Int) :=
  (List.range n).map fun i => (List.range n).map fun j => cell M j i

/-- A residue modulo `2 ^ intSize` read as a signed value of that width. -/
def toSigned (p : Platform) (r : Int) : Int :=
  if r < (2 : Int) ^ (p.intSize - 1) then r else r - (2 : Int) ^ p.intSize

/-- The exact (unbounded) sum of all elements of a matrix. -/
def exactSum (M : List (List Int)) : Int := M.flatten.sum

/-- The exact (unbounded) product of all elements of a matrix. -/
def exactProduct (M : List (List Int)) : Int := M.flatten.prod

/-- Go `strings.ReplaceAll` for one-character `old` and `new`. -/
def ReplaceAll (s : GoString) (old new : Char) : GoString :=
  s.map fun c => if c = old then new else c

/-- Example matrix: no element is zero and the product is `2 ^ 64`. -/
def overflowToZero64 : List (List Int) := [[4294967296, 4294967296], [1, 1]]

/-- Example matrix: no element is zero and the product is `2 ^ 32`. -/
def overflowToZero32 : List (List Int) := [[65536, 65536], [1, 1]]

/-- The file name ends in ".csv", letters in either case. -/
def EndsInCsv (name : GoString) : Prop :=
  ∃ (stem : GoString) (a b c : Char), name = stem ++ ['.', a, b, c] ∧
    (a = 'c' ∨ a = 'C') ∧ (b = 's' ∨ b = 'S') ∧ (c = 'v' ∨ c = 'V')

/-- The field `records[i][j]`, the empty string outside the records. -/
def field (records : List (List GoString)) (i j : Nat) : GoString :=
  (records.getD i []).getD j []

/-- A matrix is square of size `n`: `n` rows of `n` cells each. -/
def IsSquare (n : Nat) (M : List (List Int)) : Prop :=
  M.length = n ∧ ∀ row ∈ M, row.length = n

instance (n : Nat) (M : List (List Int)) : Decidable (IsSquare n M) := by
  unfold IsSquare; infer_instance

/-- Every cell of the matrix is a value of a Go `int`. -/
def AllInRange (p : Platform) (M : List (List Int)) : Prop :=
  ∀ row ∈ M, ∀ x ∈ row, InIntRange p x

instance (p : Platform) (M : List (List Int)) : Decidable (AllInRange p M) := by
  unfold AllInRange; infer_instance

/-! ## Lemmas: integers of the platform width -/

theorem intSize_pos (p : Platform) : 1 ≤ p.intSize := by
  cases p <;> decide

theorem two_pow_intSize (p : Platform) :
    (2 : Int) ^ p.intSize = 2 * (2 : Int) ^ (p.intSize - 1) := by
  cases p <;> simp [Platform.intSize]

theorem half_pos (p : Platform) : (0 : Int) < (2 : Int) ^ (p.intSize - 1) := by
  positivity

theorem wrapInt_of_inRange (p : Platform) (x : Int) (h : InIntRange p x) : wrapInt p x = x := by
  unfold InIntRange minInt maxInt at h
  unfold wrapInt
  rw [two_pow_intSize]
  have hp := half_pos p
  rw [Int.emod_eq_of_lt (by omega) (by omega)]
  omega

theorem wrapInt_inRange (p : Platform) (x : Int) : InIntRange p (wrapInt p x) := by
  unfold InIntRange minInt maxInt wrapInt
  rw [two_pow_intSize]
  have hp := half_pos p
  have h1 := Int.emod_nonneg (x + 2 ^ (p.intSize - 1)) (show (2 * (2 : Int) ^ (p.intSize - 1)) ≠ 0 by omega)
  have h2 := Int.emod_lt_of_pos (x + 2 ^ (p.intSize - 1)) (show 0 < (2 * (2 : Int) ^ (p.intSize - 1)) by omega)
  constructor <;> omega

theorem wrapInt_modEq (p : Platform) (x : Int) : wrapInt p x ≡ x [ZMOD (2 : Int) ^ p.intSize] := by
  unfold wrapInt
  have h := Int.mod_modEq (x + 2 ^ (p.intSize - 1)) ((2 : Int) ^ p.intSize)
  have h2 := Int.ModEq.sub_right ((2 : Int) ^ (p.intSize - 1)) h
  simpa using h2

theorem wrapInt_congr (p : Platform) (x y : Int) (h : x ≡ y [ZMOD (2 : Int) ^ p.intSize]) :
    wrapInt p x = wrapInt p y := by
  unfold wrapInt
  have h2 := Int.ModEq.add_right ((2 : Int) ^ (p.intSize - 1)) h
  unfold Int.ModEq at h2
  rw [h2]

theorem wrapInt_add_left (p : Platform) (a b : Int) :
    wrapInt p (wrapInt p a + b) = wrapInt p (a + b) :=
  wrapInt_congr p _ _ (Int.ModEq.add_right b (wrapInt_modEq p a))

theorem wrapInt_mul_left (p : Platform) (a b : Int) :
    wrapInt p (wrapInt p a * b) = wrapInt p (a * b) :=
  wrapInt_congr p _ _ (Int.ModEq.mul_right b (wrapInt_modEq p a))

/-! ## Lemmas: decimal rendering and parsing -/

theorem toDigitsCore_append (fuel : Nat) : ∀ (n : Nat) (ds : List Char),
    Nat.toDigitsCore 10 fuel n ds = Nat.toDigitsCore 10 fuel n [] ++ ds := by
  induction fuel with
  | zero => intro n ds; simp [Nat.toDigitsCore]
  | succ f ih =>
    intro n ds
    simp only [Nat.toDigitsCore]
    split
    · simp
    · rw [ih (n / 10) (_ :: ds), ih (n / 10) [_]]
      simp

theorem toDigitsCore_fuel (f1 : Nat) : ∀ (f2 n : Nat), n < f1 → n < f2 →
    Nat.toDigitsCore 10 f1 n [] = Nat.toDigitsCore 10 f2 n [] := by
  induction f1 with
  | zero => intro f2 n h; omega
  | succ f ih =>
    intro f2 n h1 h2
    cases f2 with
    | zero => omega
    | succ g =>
      simp only [Nat.toDigitsCore]
      split
      · rfl
      · rw [toDigitsCore_append f, toDigitsCore_append g]
        have : n / 10 < n := Nat.div_lt_self (by omega) (by omega)
        rw [ih g (n / 10) (by omega) (by omega)]

theorem toDigits_small (n : Nat) (h : n < 10) : Nat.toDigits 10 n = [Nat.digitChar n] := by
  simp [Nat.toDigits, Nat.toDigitsCore, Nat.mod_eq_of_lt h, Nat.div_eq_of_lt h]

theorem toDigits_step (n : Nat) (h : 10 ≤ n) :
    Nat.toDigits 10 n = Nat.toDigits 10 (n / 10) ++ [Nat.digitChar (n % 10)] := by
  have hne : n / 10 ≠ 0 := by omega
  have hlt : n / 10 < n := Nat.div_lt_self (by omega) (by omega)
  have h1 : Nat.toDigits 10 n = Nat.toDigitsCore 10 n (n / 10) [Nat.digitChar (n % 10)] := by
    simp only [Nat.toDigits, Nat.toDigitsCore, hne, if_false]
  rw [h1, toDigitsCore_append n]
  rw [toDigitsCore_fuel n (n / 10 + 1) (n / 10) hlt (by omega)]
  rfl

theorem digitChar_toNat (d : Nat) (h : d < 10) : (Nat.digitChar d).toNat = 48 + d := by
  interval_cases d <;> rfl

theorem toDigits_digits (n : Nat) : ∀ c ∈ Nat.toDigits 10 n, 48 ≤ c.toNat ∧ c.toNat ≤ 57 := by
  induction n using Nat.strong_induction_on with
  | _ n ih =>
    by_cases h : n < 10
    · rw [toDigits_small n h]
      intro c hc
      simp only [List.mem_singleton] at hc
      subst hc
      rw [digitChar_toNat n h]
      omega
    · rw [toDigits_step n (by omega)]
      intro c hc
      rcases List.mem_append.1 hc with hc | hc
      · exact ih (n / 10) (Nat.div_lt_self (by omega) (by omega)) c hc
      · simp only [List.mem_singleton] at hc
        subst hc
        rw [digitChar_toNat (n % 10) (Nat.mod_lt _ (by omega))]
        have := Nat.mod_lt n (show 0 < 10 by omega)
        omega

theorem toDigits_ne_nil (n : Nat) : Nat.toDigits 10 n ≠ [] := by
  by_cases h : n < 10
  · rw [toDigits_small n h]; simp
  · rw [toDigits_step n (by omega)]; simp

theorem parseUint_snoc (xs : GoString) (c : Char) : ∀ acc : Nat,
    parseUint (xs ++ [c]) acc =
      match parseUint xs acc with
      | none => none
      | some m => if 48 ≤ c.toNat ∧ c.toNat ≤ 57 then some (m * 10 + (c.toNat - 48)) else none := by
  induction xs with
  | nil => intro acc; simp [parseUint]
  | cons x xs ih =>
    intro acc
    simp only [List.cons_append, parseUint]
    split
    · exact ih _
    · rfl

theorem parseUint_toDigits (n : Nat) : parseUint (Nat.toDigits 10 n) 0 = some n := by
  induction n using Nat.strong_induction_on with
  | _ n ih =>
    by_cases h : n < 10
    · rw [toDigits_small n h]
      simp [parseUint, digitChar_toNat n h]
      omega
    · rw [toDigits_step n (by omega), parseUint_snoc,
        ih (n / 10) (Nat.div_lt_self (by omega) (by omega))]
      have hm := Nat.mod_lt n (show 0 < 10 by omega)
      simp only [digitChar_toNat (n % 10) hm]
      rw [if_pos (by omega)]
      congr 1
      omega

theorem Itoa_chars (x : Int) : ∀ c ∈ Itoa x, c = '-' ∨ (48 ≤ c.toNat ∧ c.toNat ≤ 57) := by
  intro c hc
  unfold Itoa at hc
  split at hc
  · rcases List.mem_cons.1 hc with hc | hc
    · exact Or.inl hc
    · exact Or.inr (toDigits_digits _ c hc)
  · exact Or.inr (toDigits_digits _ c hc)

theorem Itoa_not_space (x : Int) : ∀ c ∈ Itoa x, isSpace c = false := by
  intro c hc
  rcases Itoa_chars x c hc with h | h
  · subst h; decide
  · simp only [isSpace, Bool.or_eq_false_iff, decide_eq_false_iff_not, List.mem_cons,
      List.mem_singleton, List.not_mem_nil, or_false]
    constructor <;> omega

theorem Itoa_no_comma (x : Int) : ∀ c ∈ Itoa x, c ≠ ',' := by
  intro c hc
  rcases Itoa_chars x c hc with h | h
  · subst h; decide
  · rintro rfl
    revert h
    decide

theorem Itoa_no_newline (x : Int) : ∀ c ∈ Itoa x, c ≠ '\n' := by
  intro c hc
  rcases Itoa_chars x c hc with h | h
  · subst h; decide
  · rintro rfl
    revert h
    decide

theorem dropWhile_of_all_false {α : Type} (q : α → Bool) (l : List α)
    (h : ∀ a ∈ l, q a = false) : l.dropWhile q = l := by
  cases l with
  | nil => rfl
  | cons a t => simp [List.dropWhile, h a (List.mem_cons_self a t)]

theorem TrimSpace_of_no_space (s : GoString) (h : ∀ c ∈ s, isSpace c = false) :
    TrimSpace s = s := by
  unfold TrimSpace
  rw [dropWhile_of_all_false isSpace s h,
    dropWhile_of_all_false isSpace s.reverse (fun c hc => h c (List.mem_reverse.1 hc))]
  simp

theorem TrimSpace_Itoa (x : Int) : TrimSpace (Itoa x) = Itoa x :=
  TrimSpace_of_no_space _ (Itoa_not_space x)

theorem Atoi_minus (p : Platform) (t : GoString) :
    Atoi p ('-' :: t) =
      if t = [] then none
      else
        match parseUint t 0 with
        | none => none
        | some un => if 2 ^ (p.intSize - 1) < un then none else some (-(un : Int)) := by
  simp [Atoi]

theorem Atoi_plus (p : Platform) (t : GoString) :
    Atoi p ('+' :: t) =
      if t = [] then none
      else
        match parseUint t 0 with
        | none => none
        | some un => if 2 ^ (p.intSize - 1) ≤ un then none else some (un : Int) := by
  simp [Atoi]

theorem Atoi_unsigned (p : Platform) (c : Char) (t : GoString) (h1 : c ≠ '-') (h2 : c ≠ '+') :
    Atoi p (c :: t) =
      match parseUint (c :: t) 0 with
      | none => none
      | some un => if 2 ^ (p.intSize - 1) ≤ un then none else some (un : Int) := by
  simp [Atoi, h1, h2]

theorem Atoi_Itoa (p : Platform) (x : Int) (h : InIntRange p x) : Atoi p (Itoa x) = some x := by
  unfold InIntRange minInt maxInt at h
  have hpow : ((2 ^ (p.intSize - 1) : Nat) : Int) = (2 : Int) ^ (p.intSize - 1) := by push_cast; rfl
  unfold Itoa
  split
  · rename_i hneg
    rw [Atoi_minus, if_neg (toDigits_ne_nil _), parseUint_toDigits]
    simp only
    rw [if_neg (by omega)]
    congr 1
    omega
  · rename_i hpos
    have hne := toDigits_ne_nil x.toNat
    have hd := toDigits_digits x.toNat
    have hparse := parseUint_toDigits x.toNat
    revert hne hd hparse
    generalize Nat.toDigits 10 x.toNat = ds
    intro hne hd hparse
    cases ds with
    | nil => exact absurd rfl hne
    | cons c t =>
      have hc := hd c (List.mem_cons_self c t)
      have h1 : c ≠ '-' := by rintro rfl; revert hc; decide
      have h2 : c ≠ '+' := by rintro rfl; revert hc; decide
      rw [Atoi_unsigned p c t h1 h2, hparse]
      simp only
      rw [if_neg (by omega)]
      congr 1
      omega

theorem isDigit_iff (c : Char) : c.isDigit = true ↔ 48 ≤ c.toNat ∧ c.toNat ≤ 57 := by
  unfold Char.isDigit Char.toNat
  simp only [Bool.and_eq_true, decide_eq_true_eq, ge_iff_le]
  rw [UInt32.le_def, UInt32.le_def]
  simp only [BitVec.le_def]
  rfl

theorem parseUint_eq_some_iff (s : GoString) : ∀ (acc m : Nat),
    parseUint s acc = some m ↔
      (∀ c ∈ s, c.isDigit = true) ∧ m = s.foldl (fun a c => a * 10 + (c.toNat - 48)) acc := by
  induction s with
  | nil =>
    intro acc m
    constructor
    · intro h
      exact ⟨by simp, (Option.some.inj h).symm⟩
    · rintro ⟨_, h⟩
      rw [h]; rfl
  | cons c t ih =>
    intro acc m
    simp only [parseUint, List.foldl_cons, List.mem_cons, forall_eq_or_imp]
    by_cases hc : 48 ≤ c.toNat ∧ c.toNat ≤ 57
    · rw [if_pos hc, ih]
      simp [(isDigit_iff c).2 hc]
    · rw [if_neg hc]
      constructor
      · intro h; exact absurd h (by simp)
      · rintro ⟨⟨h, _⟩, _⟩
        exact absurd ((isDigit_iff c).1 h) hc

theorem parseUint_zero_iff (s : GoString) (m : Nat) :
    parseUint s 0 = some m ↔ (∀ c ∈ s, c.isDigit = true) ∧ m = decimalValue s :=
  parseUint_eq_some_iff s 0 m

theorem IsBase10Int_nil (v : Int) : ¬ IsBase10Int [] v := by
  rintro ⟨ds, hne, _, h | h | h⟩
  · exact hne h.1.symm
  · exact absurd h.1 (by simp)
  · exact absurd h.1 (by simp)

theorem IsBase10Int_minus (t : GoString) (v : Int) :
    IsBase10Int ('-' :: t) v ↔
      t ≠ [] ∧ (∀ c ∈ t, c.isDigit = true) ∧ v = -(decimalValue t : Int) := by
  constructor
  · rintro ⟨ds, hne, hd, h | h | h⟩
    · have hm : '-' ∈ ds := by rw [← h.1]; exact List.mem_cons_self _ _
      exact absurd (hd _ hm) (by decide)
    · exact absurd (List.cons.inj h.1).1 (by decide)
    · have ht : t = ds := (List.cons.inj h.1).2
      subst ht
      exact ⟨hne, hd, h.2⟩
  · rintro ⟨hne, hd, hv⟩
    exact ⟨t, hne, hd, Or.inr (Or.inr ⟨rfl, hv⟩)⟩

theorem IsBase10Int_plus (t : GoString) (v : Int) :
    IsBase10Int ('+' :: t) v ↔
      t ≠ [] ∧ (∀ c ∈ t, c.isDigit = true) ∧ v = (decimalValue t : Int) := by
  constructor
  · rintro ⟨ds, hne, hd, h | h | h⟩
    · have hm : '+' ∈ ds := by rw [← h.1]; exact List.mem_cons_self _ _
      exact absurd (hd _ hm) (by decide)
    · have ht : t = ds := (List.cons.inj h.1).2
      subst ht
      exact ⟨hne, hd, h.2⟩
    · exact absurd (List.cons.inj h.1).1 (by decide)
  · rintro ⟨hne, hd, hv⟩
    exact ⟨t, hne, hd, Or.inr (Or.inl ⟨rfl, hv⟩)⟩

theorem IsBase10Int_unsigned (c : Char) (t : GoString) (v : Int) (h1 : c ≠ '-') (h2 : c ≠ '+') :
    IsBase10Int (c :: t) v ↔
      (∀ d ∈ c :: t, d.isDigit = true) ∧ v = (decimalValue (c :: t) : Int) := by
  constructor
  · rintro ⟨ds, _, hd, h | h | h⟩
    · rw [h.1]; exact ⟨hd, h.2⟩
    · exact absurd (List.cons.inj h.1).1 h2
    · exact absurd (List.cons.inj h.1).1 h1
  · rintro ⟨hd, hv⟩
    exact ⟨c :: t, by simp, hd, Or.inl ⟨rfl, hv⟩⟩

theorem neg_inRange_iff (p : Platform) (un : Nat) :
    InIntRange p (-(un : Int)) ↔ ¬ 2 ^ (p.intSize - 1) < un := by
  have hpow : ((2 ^ (p.intSize - 1) : Nat) : Int) = (2 : Int) ^ (p.intSize - 1) := by
    push_cast; rfl
  have hp := half_pos p
  unfold InIntRange minInt maxInt
  constructor
  · intro h; omega
  · intro h; constructor <;> omega

theorem pos_inRange_iff (p : Platform) (un : Nat) :
    InIntRange p (un : Int) ↔ ¬ 2 ^ (p.intSize - 1) ≤ un := by
  have hpow : ((2 ^ (p.intSize - 1) : Nat) : Int) = (2 : Int) ^ (p.intSize - 1) := by
    push_cast; rfl
  have hp := half_pos p
  unfold InIntRange minInt maxInt
  constructor
  · intro h; omega
  · intro h; constructor <;> omega

/-- The parser `Atoi` accepts exactly the base-10 signed integers in the range of `int`,
and returns their value. -/
theorem Atoi_eq_some_iff (p : Platform) (s : GoString) (v : Int) :
    Atoi p s = some v ↔ IsBase10Int s v ∧ InIntRange p v := by
  cases s with
  | nil =>
    constructor
    · intro h; simp [Atoi] at h
    · rintro ⟨h, _⟩; exact absurd h (IsBase10Int_nil v)
  | cons c t =>
    by_cases h1 : c = '-'
    · subst h1
      rw [Atoi_minus, IsBase10Int_minus]
      by_cases ht : t = []
      · simp [ht]
      · rw [if_neg ht]
        cases hp : parseUint t 0 with
        | none =>
          simp only
          constructor
          · intro h; exact absurd h (by simp)
          · rintro ⟨⟨_, hd, _⟩, _⟩
            have := (parseUint_zero_iff t (decimalValue t)).2 ⟨hd, rfl⟩
            rw [hp] at this
            exact absurd this (by simp)
        | some un =>
          simp only
          obtain ⟨hd, hun⟩ := (parseUint_zero_iff t un).1 hp
          constructor
          · intro h
            split at h
            · exact absurd h (by simp)
            · rename_i hr
              have hv : v = -(un : Int) := (Option.some.inj h).symm
              subst hv
              exact ⟨⟨ht, hd, by rw [hun]⟩, (neg_inRange_iff p un).2 hr⟩
          · rintro ⟨⟨_, _, hv⟩, hr⟩
            rw [← hun] at hv
            subst hv
            rw [if_neg ((neg_inRange_iff p un).1 hr)]
    · by_cases h2 : c = '+'
      · subst h2
        rw [Atoi_plus, IsBase10Int_plus]
        by_cases ht : t = []
        · simp [ht]
        · rw [if_neg ht]
          cases hp : parseUint t 0 with
          | none =>
            simp only
            constructor
            · intro h; exact absurd h (by simp)
            · rintro ⟨⟨_, hd, _⟩, _⟩
              have := (parseUint_zero_iff t (decimalValue t)).2 ⟨hd, rfl⟩
              rw [hp] at this
              exact absurd this (by simp)
          | some un =>
            simp only
            obtain ⟨hd, hun⟩ := (parseUint_zero_iff t un).1 hp
            constructor
            · intro h
              split at h
              · exact absurd h (by simp)
              · rename_i hr
                have hv : v = (un : Int) := (Option.some.inj h).symm
                subst hv
                exact ⟨⟨ht, hd, by rw [hun]⟩, (pos_inRange_iff p un).2 hr⟩
            · rintro ⟨⟨_, _, hv⟩, hr⟩
              rw [← hun] at hv
              subst hv
              rw [if_neg ((pos_inRange_iff p un).1 hr)]
      · rw [Atoi_unsigned p c t h1 h2, IsBase10Int_unsigned c t v h1 h2]
        cases hp : parseUint (c :: t) 0 with
        | none =>
          simp only
          constructor
          · intro h; exact absurd h (by simp)
          · rintro ⟨⟨hd, _⟩, _⟩
            have := (parseUint_zero_iff (c :: t) (decimalValue (c :: t))).2 ⟨hd, rfl⟩
            rw [hp] at this
            exact absurd this (by simp)
        | some un =>
          simp only
          obtain ⟨hd, hun⟩ := (parseUint_zero_iff (c :: t) un).1 hp
          constructor
          · intro h
            split at h
            · exact absurd h (by simp)
            · rename_i hr
              have hv : v = (un : Int) := (Option.some.inj h).symm
              subst hv
              exact ⟨⟨hd, by rw [hun]⟩, (pos_inRange_iff p un).2 hr⟩
          · rintro ⟨⟨_, hv⟩, hr⟩
            rw [← hun] at hv
            subst hv
            rw [if_neg ((pos_inRange_iff p un).1 hr)]

/-! ## Lemmas: joining and splitting -/

theorem Join_cons (sep : GoString) (a : GoString) (rest : List GoString) :
    Join (a :: rest) sep = a ++ (rest.map (fun r => sep ++ r)).flatten := by
  induction rest generalizing a with
  | nil => simp [Join]
  | cons b rest ih => simp [Join, ih b]

theorem splitAt_of_no_sep (sep : Char) (a : GoString) (h : ∀ c ∈ a, c ≠ sep) :
    splitAt sep a = [a] := by
  induction a with
  | nil => rfl
  | cons c t ih =>
    have hc : c ≠ sep := h c (List.mem_cons_self c t)
    simp [splitAt, hc, ih (fun d hd => h d (List.mem_cons_of_mem c hd))]

theorem splitAt_append_sep (sep : Char) (a rest : GoString) (h : ∀ c ∈ a, c ≠ sep) :
    splitAt sep (a ++ sep :: rest) = a :: splitAt sep rest := by
  induction a with
  | nil => simp [splitAt]
  | cons c t ih =>
    have hc : c ≠ sep := h c (List.mem_cons_self c t)
    simp [splitAt, hc, ih (fun d hd => h d (List.mem_cons_of_mem c hd))]

theorem splitAt_Join (sep : Char) (xs : List GoString) (hne : xs ≠ [])
    (h : ∀ x ∈ xs, ∀ c ∈ x, c ≠ sep) : splitAt sep (Join xs [sep]) = xs := by
  induction xs with
  | nil => exact absurd rfl hne
  | cons a rest ih =>
    cases rest with
    | nil => simpa [Join] using splitAt_of_no_sep sep a (h a (List.mem_cons_self a _))
    | cons b rest =>
      have hrec := ih (by simp) (fun x hx => h x (List.mem_cons_of_mem a hx))
      have hstep : Join (a :: b :: rest) [sep] = a ++ sep :: Join (b :: rest) [sep] := by
        simp [Join]
      rw [hstep, splitAt_append_sep sep a _ (h a (List.mem_cons_self a _)), hrec]

theorem Join_no_char (ch : Char) (sep : GoString) (xs : List GoString)
    (hsep : ∀ c ∈ sep, c ≠ ch) (h : ∀ x ∈ xs, ∀ c ∈ x, c ≠ ch) :
    ∀ c ∈ Join xs sep, c ≠ ch := by
  induction xs with
  | nil => intro c hc; simp [Join] at hc
  | cons a rest ih =>
    cases rest with
    | nil => simpa [Join] using h a (List.mem_cons_self a _)
    | cons b rest =>
      intro c hc
      have hstep : Join (a :: b :: rest) sep = a ++ sep ++ Join (b :: rest) sep := by
        simp [Join]
      rw [hstep] at hc
      rcases List.mem_append.1 hc with hc | hc
      · rcases List.mem_append.1 hc with hc | hc
        · exact h a (List.mem_cons_self a _) c hc
        · exact hsep c hc
      · exact ih (fun x hx => h x (List.mem_cons_of_mem a hx)) c hc

theorem writeRows_succ (i : Nat) (rows : List (List Int)) : ∀ result : GoString,
    writeRows (i + 1) rows result
      = result ++ (rows.map (fun r => "\n".toList ++ rowLine r)).flatten := by
  induction rows generalizing i with
  | nil => intro result; simp [writeRows]
  | cons r rest ih =>
    intro result
    simp only [writeRows, Nat.succ_pos, if_true, gt_iff_lt]
    rw [ih (i + 1)]
    simp [rowLine]

theorem writeRows_zero (rows : List (List Int)) :
    writeRows 0 rows [] = Join (rows.map rowLine) "\n".toList := by
  cases rows with
  | nil => rfl
  | cons r rest =>
    simp only [writeRows, gt_iff_lt, Nat.lt_irrefl, if_false, List.nil_append, List.map_cons]
    rw [writeRows_succ 0, Join_cons]
    simp [rowLine, Function.comp_def]

theorem rowLine_no_newline (row : List Int) : ∀ c ∈ rowLine row, c ≠ '\n' := by
  apply Join_no_char
  · intro c hc
    simp only [String.toList, List.mem_singleton] at hc
    subst hc; decide
  · intro x hx
    rcases List.mem_map.1 hx with ⟨v, _, rfl⟩
    exact Itoa_no_newline v

theorem splitAt_rowLine (row : List Int) (hne : row ≠ []) :
    splitAt ',' (rowLine row) = row.map Itoa := by
  apply splitAt_Join
  · simpa using hne
  · intro x hx
    rcases List.mem_map.1 hx with ⟨v, _, rfl⟩
    exact Itoa_no_comma v

/-! ## Lemmas: the loops of `NewMatrixProcessor` -/

theorem parseFields_ok_iff (p : Platform) (i : Nat) (fs : List GoString) :
    ∀ (j : Nat) (nums : List Int),
      parseFields p i j fs = .ok nums ↔
        List.Forall₂ (fun f v => Atoi p (TrimSpace f) = some v) fs nums := by
  induction fs with
  | nil =>
    intro j nums
    simp only [parseFields, List.forall₂_nil_left_iff]
    constructor
    · intro h; injection h with h; exact h.symm
    · intro h; rw [h]
  | cons f rest ih =>
    intro j nums
    rw [List.forall₂_cons_left_iff]
    simp only [parseFields]
    cases hA : Atoi p (TrimSpace f) with
    | none =>
      simp only
      constructor
      · intro h; cases h
      · rintro ⟨v, vs, hv, _, _⟩; cases hv
    | some num =>
      simp only
      cases hrec : parseFields p i (j + 1) rest with
      | error e =>
        simp only
        constructor
        · intro h; cases h
        · rintro ⟨v, vs, _, hvs, _⟩
          have := (ih (j + 1) vs).2 hvs
          rw [hrec] at this
          cases this
      | ok nums1 =>
        simp only
        have h1 := (ih (j + 1) nums1).1 hrec
        constructor
        · intro h
          injection h with h
          exact ⟨num, nums1, rfl, h1, h.symm⟩
        · rintro ⟨v, vs, hv, hvs, hn⟩
          have h2 := (ih (j + 1) vs).2 hvs
          rw [hrec] at h2
          injection h2 with h2
          injection hv with hv
          rw [hn, hv, h2]

theorem parseFields_cons (p : Platform) (i j : Nat) (val : GoString) (rest : List GoString) :
    parseFields p i j (val :: rest) =
      match Atoi p (TrimSpace val) with
      | none =>
        .error ("invalid integer at position [".toList ++ Itoa i ++ ",".toList ++ Itoa j
          ++ "]: ".toList ++ val)
      | some num =>
        match parseFields p i (j + 1) rest with
        | .error e => .error e
        | .ok nums => .ok (num :: nums) := rfl

theorem parseRows_cons (p : Platform) (cols i : Nat) (record : List GoString)
    (rest : List (List GoString)) :
    parseRows p cols i (record :: rest) =
      if record.length ≠ cols then
        .error ("inconsistent row length at row ".toList ++ Itoa i)
      else
        match parseFields p i 0 record with
        | .error e => .error e
        | .ok row =>
          match parseRows p cols (i + 1) rest with
          | .error e => .error e
          | .ok rows => .ok (row :: rows) := rfl

theorem parseFields_error (p : Platform) (i : Nat) (f : GoString) (post : List GoString)
    (hf : Atoi p (TrimSpace f) = none) :
    ∀ (pre : List GoString) (j : Nat),
      (∀ g ∈ pre, ∃ v, Atoi p (TrimSpace g) = some v) →
      parseFields p i j (pre ++ f :: post) =
        .error ("invalid integer at position [".toList ++ Itoa i ++ ",".toList
          ++ Itoa ((j + pre.length : Nat) : Int) ++ "]: ".toList ++ f) := by
  intro pre
  induction pre with
  | nil =>
    intro j _
    rw [List.nil_append, parseFields_cons, hf]
    rfl
  | cons g pre ih =>
    intro j hpre
    obtain ⟨v, hv⟩ := hpre g (List.mem_cons_self g pre)
    rw [List.cons_append, parseFields_cons, hv]
    simp only
    rw [ih (j + 1) (fun x hx => hpre x (List.mem_cons_of_mem g hx))]
    simp only [List.length_cons]
    have : j + 1 + pre.length = j + (pre.length + 1) := by omega
    rw [this]

theorem parseFields_good (p : Platform) (i j : Nat) (r : List GoString)
    (h : ∀ f ∈ r, ∃ v, Atoi p (TrimSpace f) = some v) :
    ∃ row, parseFields p i j r = .ok row := by
  induction r generalizing j with
  | nil => exact ⟨[], rfl⟩
  | cons f rest ih =>
    obtain ⟨v, hv⟩ := h f (List.mem_cons_self f rest)
    obtain ⟨row, hrow⟩ := ih (j + 1) (fun x hx => h x (List.mem_cons_of_mem f hx))
    exact ⟨v :: row, by simp only [parseFields, hv, hrow]⟩

theorem parseRows_ok_iff (p : Platform) (cols : Nat) (rs : List (List GoString)) :
    ∀ (i : Nat) (M : List (List Int)),
      parseRows p cols i rs = .ok M ↔
        List.Forall₂ (fun r row => r.length = cols ∧
          List.Forall₂ (fun f v => Atoi p (TrimSpace f) = some v) r row) rs M := by
  induction rs with
  | nil =>
    intro i M
    simp only [parseRows, List.forall₂_nil_left_iff]
    constructor
    · intro h; injection h with h; exact h.symm
    · intro h; rw [h]
  | cons r rest ih =>
    intro i M
    rw [List.forall₂_cons_left_iff]
    simp only [parseRows]
    by_cases hlen : r.length = cols
    · rw [if_neg (by simpa using hlen)]
      cases hrow : parseFields p i 0 r with
      | error e =>
        simp only
        constructor
        · intro h; cases h
        · rintro ⟨row, M1, ⟨_, hr⟩, _, _⟩
          have := (parseFields_ok_iff p i r 0 row).2 hr
          rw [hrow] at this
          cases this
      | ok row =>
        simp only
        have hrow1 := (parseFields_ok_iff p i r 0 row).1 hrow
        cases hrec : parseRows p cols (i + 1) rest with
        | error e =>
          simp only
          constructor
          · intro h; cases h
          · rintro ⟨_, M1, _, hM1, _⟩
            have := (ih (i + 1) M1).2 hM1
            rw [hrec] at this
            cases this
        | ok rows =>
          simp only
          have hrows := (ih (i + 1) rows).1 hrec
          constructor
          · intro h
            injection h with h
            exact ⟨row, rows, ⟨hlen, hrow1⟩, hrows, h.symm⟩
          · rintro ⟨row2, M1, ⟨_, hr⟩, hM1, hM⟩
            have h2 := (parseFields_ok_iff p i r 0 row2).2 hr
            rw [hrow] at h2
            injection h2 with h2
            have h3 := (ih (i + 1) M1).2 hM1
            rw [hrec] at h3
            injection h3 with h3
            rw [hM, h2, h3]
    · rw [if_pos (by simpa using hlen)]
      constructor
      · intro h; cases h
      · rintro ⟨_, _, ⟨h, _⟩, _, _⟩
        exact absurd h hlen

theorem parseRows_error_length (p : Platform) (cols : Nat) (r : List GoString)
    (post : List (List GoString)) (hr : r.length ≠ cols) :
    ∀ (pre : List (List GoString)) (i : Nat),
      (∀ g ∈ pre, GoodRecord p cols g) →
      parseRows p cols i (pre ++ r :: post) =
        .error ("inconsistent row length at row ".toList
          ++ Itoa ((i + pre.length : Nat) : Int)) := by
  intro pre
  induction pre with
  | nil =>
    intro i _
    rw [List.nil_append, parseRows_cons, if_pos hr]
    rfl
  | cons g pre ih =>
    intro i hpre
    obtain ⟨hlen, hg⟩ := hpre g (List.mem_cons_self g pre)
    obtain ⟨row, hrow⟩ := parseFields_good p i 0 g hg
    rw [List.cons_append, parseRows_cons, if_neg (by simpa using hlen), hrow]
    simp only
    rw [ih (i + 1) (fun x hx => hpre x (List.mem_cons_of_mem g hx))]
    simp only [List.length_cons]
    have : i + 1 + pre.length = i + (pre.length + 1) := by omega
    rw [this]

theorem parseRows_error_field (p : Platform) (cols : Nat) (fpre : List GoString)
    (f : GoString) (fpost : List GoString) (post : List (List GoString))
    (hlen : (fpre ++ f :: fpost).length = cols)
    (hfpre : ∀ g ∈ fpre, ∃ v, Atoi p (TrimSpace g) = some v)
    (hf : Atoi p (TrimSpace f) = none) :
    ∀ (pre : List (List GoString)) (i : Nat),
      (∀ g ∈ pre, GoodRecord p cols g) →
      parseRows p cols i (pre ++ (fpre ++ f :: fpost) :: post) =
        .error ("invalid integer at position [".toList ++ Itoa ((i + pre.length : Nat) : Int)
          ++ ",".toList ++ Itoa (fpre.length : Int) ++ "]: ".toList ++ f) := by
  intro pre
  induction pre with
  | nil =>
    intro i _
    rw [List.nil_append, parseRows_cons, if_neg (by simpa using hlen)]
    rw [parseFields_error p i f fpost hf fpre 0 hfpre]
    simp
  | cons g pre ih =>
    intro i hpre
    obtain ⟨hglen, hg⟩ := hpre g (List.mem_cons_self g pre)
    obtain ⟨row, hrow⟩ := parseFields_good p i 0 g hg
    rw [List.cons_append, parseRows_cons, if_neg (by simpa using hglen), hrow]
    simp only
    rw [ih (i + 1) (fun x hx => hpre x (List.mem_cons_of_mem g hx))]
    simp only [List.length_cons]
    have : i + 1 + pre.length = i + (pre.length + 1) := by omega
    rw [this]

theorem splitRecords_Echo (M : List (List Int)) (hne : M ≠ [])
    (hrows : ∀ row ∈ M, row ≠ []) :
    splitRecords (MatrixProcessor.Echo ⟨M⟩) = M.map (fun row => row.map Itoa) := by
  unfold splitRecords MatrixProcessor.Echo
  rw [writeRows_zero]
  have h1 : splitAt '\n' (Join (M.map rowLine) "\n".toList) = M.map rowLine := by
    apply splitAt_Join
    · simpa using hne
    · intro x hx
      rcases List.mem_map.1 hx with ⟨row, _, rfl⟩
      exact rowLine_no_newline row
  rw [h1, List.map_map]
  apply List.map_congr_left
  intro row hrow
  exact splitAt_rowLine row (hrows row hrow)

theorem parseRows_Itoa (p : Platform) (cols i : Nat) (M : List (List Int))
    (hlen : ∀ row ∈ M, row.length = cols) (hr : AllInRange p M) :
    parseRows p cols i (M.map (fun row => row.map Itoa)) = .ok M := by
  rw [parseRows_ok_iff, List.forall₂_map_left_iff, List.forall₂_same]
  intro row hrow
  refine ⟨by simpa using hlen row hrow, ?_⟩
  rw [List.forall₂_map_left_iff, List.forall₂_same]
  intro x hx
  rw [TrimSpace_Itoa]
  exact Atoi_Itoa p x (hr row hrow x hx)

theorem forall₂_getD {α β : Type} {R : α → β → Prop} (d1 : α) (d2 : β) {l1 : List α}
    {l2 : List β} (h : List.Forall₂ R l1 l2) :
    ∀ i, i < l1.length → R (l1.getD i d1) (l2.getD i d2) := by
  induction h with
  | nil => intro i hi; exact absurd hi (by simp)
  | cons hab _ ih =>
    intro i hi
    cases i with
    | zero => simpa using hab
    | succ k =>
      have := ih k (by simpa using hi)
      simpa using this

theorem forall₂_mem_left {α β : Type} {R : α → β → Prop} {l1 : List α} {l2 : List β}
    (h : List.Forall₂ R l1 l2) : ∀ a ∈ l1, ∃ b ∈ l2, R a b := by
  induction h with
  | nil => intro a ha; exact absurd ha (by simp)
  | cons hab _ ih =>
    intro a ha
    rcases List.mem_cons.1 ha with ha | ha
    · subst ha; exact ⟨_, List.mem_cons_self _ _, hab⟩
    · obtain ⟨b, hb, hr⟩ := ih a ha
      exact ⟨b, List.mem_cons_of_mem _ hb, hr⟩

theorem forall₂_mem_right {α β : Type} {R : α → β → Prop} {l1 : List α} {l2 : List β}
    (h : List.Forall₂ R l1 l2) : ∀ b ∈ l2, ∃ a ∈ l1, R a b := by
  induction h with
  | nil => intro b hb; exact absurd hb (by simp)
  | cons hab _ ih =>
    intro b hb
    rcases List.mem_cons.1 hb with hb | hb
    · subst hb; exact ⟨_, List.mem_cons_self _ _, hab⟩
    · obtain ⟨a, ha, hr⟩ := ih b hb
      exact ⟨a, List.mem_cons_of_mem _ ha, hr⟩

theorem NewMatrixProcessor_total (p : Platform) (records : List (List GoString)) :
    (∃ mp, NewMatrixProcessor p records = (some mp, none)) ∨
      (∃ e, NewMatrixProcessor p records = (none, some e)) := by
  cases records with
  | nil => exact Or.inr ⟨_, rfl⟩
  | cons first rest =>
    simp only [NewMatrixProcessor]
    split
    · exact Or.inr ⟨_, rfl⟩
    · split
      · exact Or.inr ⟨_, rfl⟩
      · exact Or.inl ⟨_, rfl⟩

theorem NewMatrixProcessor_ok_iff (p : Platform) (records : List (List GoString))
    (M : List (List Int)) :
    NewMatrixProcessor p records = (some ⟨M⟩, none) ↔
      records ≠ [] ∧ records.length = (records.headD []).length ∧
        parseRows p (records.headD []).length 0 records = .ok M := by
  cases records with
  | nil => simp [NewMatrixProcessor]
  | cons first rest =>
    simp only [NewMatrixProcessor, List.headD_cons, ne_eq, reduceCtorEq, not_false_eq_true,
      true_and]
    by_cases hsq : (first :: rest).length = first.length
    · rw [if_neg (by simpa using hsq)]
      cases hrows : parseRows p first.length 0 (first :: rest) with
      | error e => simp [hsq]
      | ok rows =>
        simp only [Prod.mk.injEq, Option.some.injEq, MatrixProcessor.mk.injEq, and_true,
          Except.ok.injEq]
        constructor
        · intro h; exact ⟨hsq, h⟩
        · intro h; exact h.2
    · rw [if_pos (by simpa using hsq)]
      constructor
      · intro h; cases h
      · intro h; exact absurd h.1 hsq

theorem validRecords_iff_parse (p : Platform) (records : List (List GoString)) :
    ValidRecords p records ↔
      records ≠ [] ∧ records.length = (records.headD []).length ∧
        ∃ M, parseRows p (records.headD []).length 0 records = .ok M := by
  unfold ValidRecords
  constructor
  · rintro ⟨hne, hsq, hlen, hf⟩
    refine ⟨hne, hsq, records.map (fun r => r.map (fun f => (Atoi p (TrimSpace f)).getD 0)), ?_⟩
    rw [parseRows_ok_iff, List.forall₂_map_right_iff, List.forall₂_same]
    intro r hr
    refine ⟨hlen r hr, ?_⟩
    rw [List.forall₂_map_right_iff, List.forall₂_same]
    intro f hfr
    obtain ⟨v, hv⟩ := hf r hr f hfr
    rw [(Atoi_eq_some_iff p (TrimSpace f) v).2 hv]
    rfl
  · rintro ⟨hne, hsq, M, hM⟩
    rw [parseRows_ok_iff] at hM
    refine ⟨hne, hsq, ?_, ?_⟩
    · intro r hr
      obtain ⟨row, _, hrow⟩ := forall₂_mem_left hM r hr
      exact hrow.1
    · intro r hr f hfr
      obtain ⟨row, _, hrow⟩ := forall₂_mem_left hM r hr
      obtain ⟨v, _, hv⟩ := forall₂_mem_left hrow.2 f hfr
      exact ⟨v, (Atoi_eq_some_iff p (TrimSpace f) v).1 hv⟩

theorem split_at_index {α : Type} (l : List α) (i : Nat) (hi : i < l.length) (d : α) :
    l = l.take i ++ l.getD i d :: l.drop (i + 1) := by
  rw [List.getD_eq_getElem l d hi, ← List.drop_eq_getElem_cons hi, List.take_append_drop]

theorem mem_take_getD {α : Type} (l : List α) (i : Nat) (d : α) (a : α) (ha : a ∈ l.take i) :
    ∃ k, k < i ∧ k < l.length ∧ l.getD k d = a := by
  obtain ⟨k, hk, hka⟩ := List.getElem_of_mem ha
  have hk2 : k < i ∧ k < l.length := by
    rw [List.length_take] at hk
    omega
  refine ⟨k, hk2.1, hk2.2, ?_⟩
  rw [List.getD_eq_getElem l d hk2.2, ← hka, List.getElem_take]

theorem mem_getD {α : Type} (l : List α) (d : α) (a : α) (ha : a ∈ l) :
    ∃ k, k < l.length ∧ l.getD k d = a := by
  obtain ⟨k, hk, hka⟩ := List.getElem_of_mem ha
  exact ⟨k, hk, by rw [List.getD_eq_getElem l d hk, hka]⟩

theorem getD_mem {α : Type} (l : List α) (d : α) (k : Nat) (hk : k < l.length) :
    l.getD k d ∈ l := by
  rw [List.getD_eq_getElem l d hk]
  exact List.getElem_mem hk

/-! ## Lemmas: the response writer and the dispatcher -/

theorem httpError_unwritten (w : ResponseWriter) (msg : GoString) (code : Nat)
    (h : w.wroteHeader = false) :
    (httpError w msg code).wroteHeader = true ∧ (httpError w msg code).status = code := by
  simp [httpError, ResponseWriter.Write, ResponseWriter.WriteHeader,
    ResponseWriter.setHeader, h]

theorem httpError_written (w : ResponseWriter) (msg : GoString) (code : Nat)
    (h : w.wroteHeader = true) :
    (httpError w msg code).wroteHeader = true ∧ (httpError w msg code).status = w.status := by
  simp [httpError, ResponseWriter.Write, ResponseWriter.WriteHeader,
    ResponseWriter.setHeader, h]

theorem dispatch_nil (p : Platform) (w : ResponseWriter) (operation : GoString)
    (hop : operation ∈ knownOperations) : dispatch p w none operation = ⟨w, true⟩ := by
  simp only [knownOperations, List.mem_cons, List.mem_singleton, List.not_mem_nil,
    or_false] at hop
  rcases hop with h | h | h | h | h <;> subst h <;> rfl

theorem HandleMatrix_parsed (p : Platform) (readAll : CsvReadAll) (w : ResponseWriter)
    (r : Request) (operation : GoString) (file : GoString) (header : Option FileHeader)
    (records : List (List GoString))
    (hm : r.Method = "POST".toList)
    (hct : HasPrefix r.ContentType "multipart/form-data".toList = true)
    (hff : r.FormFile = .ok (file, header))
    (hval : ValidateFileUpload file header = none)
    (hcsv : readAll file = .ok records) :
    HandleMatrix p readAll w r operation =
      dispatch p
        (if (NewMatrixProcessor p records).2 ≠ none then
          httpError w "Internal server error processing matrix".toList 500
        else w)
        (NewMatrixProcessor p records).1 operation := by
  unfold HandleMatrix
  rw [if_neg (not_not.2 hm), if_neg (not_not.2 hct), hff]
  simp only [hval, hcsv]

/-! ## Lemmas: matrices by index -/

theorem collect_map {α β : Type} (l : List α) (f : α → Option β) (g : α → β)
    (h : ∀ x ∈ l, f x = some (g x)) : collect (l.map f) = some (l.map g) := by
  induction l with
  | nil => rfl
  | cons a t ih =>
    have ha := h a (List.mem_cons_self a t)
    have ht := ih (fun x hx => h x (List.mem_cons_of_mem a hx))
    simp only [List.map_cons, ha, collect, ht]

theorem cell_eq_getElem (A : List (List Int)) (i j : Nat) (hi : i < A.length)
    (hj : j < (A[i]).length) : cell A i j = (A[i])[j] := by
  unfold cell
  rw [List.getD_eq_getElem A [] hi, List.getD_eq_getElem _ 0 hj]

theorem invertedMatrix_square (n : Nat) (M : List (List Int)) (hsq : IsSquare n M) :
    invertedMatrix M = some (transposed n M) := by
  obtain ⟨hlen, hrows⟩ := hsq
  unfold invertedMatrix transposed
  simp only [hlen]
  apply collect_map
  intro i hi
  apply collect_map
  intro j hj
  have hi2 : i < n := List.mem_range.1 hi
  have hj2 : j < M.length := by rw [hlen]; exact List.mem_range.1 hj
  have hrow : (M[j]).length = n := hrows _ (List.getElem_mem hj2)
  have hi3 : i < (M[j]).length := by omega
  rw [List.getElem?_eq_getElem hj2]
  simp only
  rw [List.getElem?_eq_getElem hi3, cell_eq_getElem M j i hj2 hi3]

theorem transposed_square (n : Nat) (M : List (List Int)) : IsSquare n (transposed n M) := by
  constructor
  · simp [transposed]
  · intro row hrow
    simp only [transposed, List.mem_map, List.mem_range] at hrow
    obtain ⟨i, _, rfl⟩ := hrow
    simp

theorem cell_transposed (n : Nat) (M : List (List Int)) (i j : Nat) (hi : i < n) (hj : j < n) :
    cell (transposed n M) i j = cell M j i := by
  have h1 : i < (transposed n M).length := by simp [transposed, hi]
  have h2 : j < ((transposed n M)[i]).length := by simp [transposed, hj]
  rw [cell_eq_getElem _ i j h1 h2]
  simp [transposed]

theorem matrix_ext (n : Nat) (A B : List (List Int)) (hA : IsSquare n A) (hB : IsSquare n B)
    (h : ∀ i j, i < n → j < n → cell A i j = cell B i j) : A = B := by
  obtain ⟨hAl, hAr⟩ := hA
  obtain ⟨hBl, hBr⟩ := hB
  apply List.ext_getElem (by rw [hAl, hBl])
  intro i h1 h2
  have hA1 : (A[i]).length = n := hAr _ (List.getElem_mem h1)
  have hB1 : (B[i]).length = n := hBr _ (List.getElem_mem h2)
  apply List.ext_getElem (by rw [hA1, hB1])
  intro j h3 h4
  have := h i j (by omega) (by omega)
  rw [cell_eq_getElem A i j h1 h3, cell_eq_getElem B i j h2 h4] at this
  exact this

theorem cell_mem (M : List (List Int)) (i j : Nat) (hi : i < M.length)
    (hj : j < (M[i]).length) : ∃ row ∈ M, cell M i j ∈ row := by
  refine ⟨M[i], List.getElem_mem hi, ?_⟩
  rw [cell_eq_getElem M i j hi hj]
  exact List.getElem_mem hj

theorem transposed_inRange (p : Platform) (n : Nat) (M : List (List Int)) (hsq : IsSquare n M)
    (hr : AllInRange p M) : AllInRange p (transposed n M) := by
  intro row hrow x hx
  simp only [transposed, List.mem_map, List.mem_range] at hrow
  obtain ⟨i, hi, rfl⟩ := hrow
  simp only [List.mem_map, List.mem_range] at hx
  obtain ⟨j, hj, rfl⟩ := hx
  have hj2 : j < M.length := by rw [hsq.1]; exact hj
  have hi2 : i < (M[j]).length := by rw [hsq.2 _ (List.getElem_mem hj2)]; exact hi
  obtain ⟨r, hrM, hxr⟩ := cell_mem M j i hj2 hi2
  exact hr r hrM _ hxr

theorem NewMatrixProcessor_Itoa (p : Platform) (n : Nat) (M : List (List Int)) (hn : 1 ≤ n)
    (hsq : IsSquare n M) (hr : AllInRange p M) :
    NewMatrixProcessor p (M.map fun row => row.map Itoa) = (some ⟨M⟩, none) := by
  obtain ⟨hlen, hrows⟩ := hsq
  rw [NewMatrixProcessor_ok_iff]
  cases M with
  | nil => simp at hlen; omega
  | cons first rest =>
    have hfirst : first.length = n := hrows first (List.mem_cons_self _ _)
    refine ⟨by simp, ?_, ?_⟩
    · simp only [List.map_cons, List.length_cons, List.length_map, List.headD_cons]
      simp only [List.length_cons] at hlen
      omega
    · have := parseRows_Itoa p n 0 (first :: rest) hrows hr
      simpa [hfirst] using this

theorem square_rows_ne_nil (n : Nat) (M : List (List Int)) (hn : 1 ≤ n) (hsq : IsSquare n M) :
    M ≠ [] ∧ ∀ row ∈ M, row ≠ [] := by
  obtain ⟨hlen, hrows⟩ := hsq
  constructor
  · intro h; rw [h] at hlen; simp at hlen; omega
  · intro row hrow h
    have := hrows row hrow
    rw [h] at this; simp at this; omega

/-! ## Lemmas: `Flatten` and `Sum` -/

theorem foldl_append_Itoa (row : List Int) : ∀ acc : List GoString,
    row.foldl (fun nums num => nums ++ [Itoa num]) acc = acc ++ row.map Itoa := by
  induction row with
  | nil => intro acc; simp
  | cons x xs ih => intro acc; simp [ih]

theorem foldl_rows_Itoa (M : List (List Int)) : ∀ acc : List GoString,
    M.foldl (fun nums row => row.foldl (fun nums num => nums ++ [Itoa num]) nums) acc
      = acc ++ M.flatten.map Itoa := by
  induction M with
  | nil => intro acc; simp
  | cons row rest ih =>
    intro acc
    rw [List.foldl_cons, foldl_append_Itoa, ih, List.flatten_cons, List.map_append,
      List.append_assoc]

theorem Flatten_eq_Join (M : List (List Int)) :
    MatrixProcessor.Flatten ⟨M⟩ = Join (M.flatten.map Itoa) ",".toList := by
  unfold MatrixProcessor.Flatten
  simp only [foldl_rows_Itoa, List.nil_append]

theorem length_flatten_uniform (n : Nat) (M : List (List Int))
    (h : ∀ row ∈ M, row.length = n) : M.flatten.length = M.length * n := by
  induction M with
  | nil => simp
  | cons row rest ih =>
    have h1 := h row (List.mem_cons_self _ _)
    have h2 := ih (fun r hr => h r (List.mem_cons_of_mem _ hr))
    simp only [List.flatten_cons, List.length_append, List.length_cons, h1, h2]
    ring

theorem getD_flatten_uniform (n : Nat) (M : List (List Int))
    (h : ∀ row ∈ M, row.length = n) :
    ∀ k, k < M.length * n → M.flatten.getD k 0 = cell M (k / n) (k % n) := by
  induction M with
  | nil => intro k hk; simp at hk
  | cons row rest ih =>
    intro k hk
    have h1 := h row (List.mem_cons_self _ _)
    have hn : 0 < n := by
      rcases Nat.eq_zero_or_pos n with h0 | h0
      · rw [h0] at hk; simp at hk
      · exact h0
    rw [List.flatten_cons]
    by_cases hlt : k < n
    · rw [List.getD_append _ _ _ _ (by omega), Nat.div_eq_of_lt hlt, Nat.mod_eq_of_lt hlt]
      simp [cell]
    · have hge : n ≤ k := by omega
      rw [List.getD_append_right _ _ _ _ (by omega), h1]
      have hk2 : k - n < rest.length * n := by
        simp only [List.length_cons] at hk
        have : (rest.length + 1) * n = rest.length * n + n := by ring
        omega
      rw [ih (fun r hr => h r (List.mem_cons_of_mem _ hr)) (k - n) hk2]
      have hdiv : k / n = (k - n) / n + 1 := by
        rw [Nat.div_eq k n, if_pos ⟨hn, hge⟩]
      have hmod : k % n = (k - n) % n := Nat.mod_eq_sub_mod hge
      rw [hdiv, hmod]
      simp [cell]

theorem wrapInt_eq_toSigned (p : Platform) (x : Int) :
    wrapInt p x = toSigned p (x % (2 : Int) ^ p.intSize) := by
  unfold wrapInt toSigned
  cases p <;> simp only [Platform.intSize] <;> norm_num <;> split <;> omega

theorem foldl_addInt (p : Platform) (row : List Int) : ∀ acc : Int, InIntRange p acc →
    row.foldl (fun sum num => addInt p sum num) acc = wrapInt p (acc + row.sum) := by
  induction row with
  | nil =>
    intro acc hacc
    simp [wrapInt_of_inRange p acc hacc]
  | cons x xs ih =>
    intro acc _
    simp only [List.foldl_cons, List.sum_cons]
    rw [ih (addInt p acc x) (wrapInt_inRange p _)]
    unfold addInt
    rw [wrapInt_add_left, Int.add_assoc]

theorem foldl_rows_addInt (p : Platform) (M : List (List Int)) : ∀ acc : Int, InIntRange p acc →
    M.foldl (fun sum row => row.foldl (fun sum num => addInt p sum num) sum) acc
      = wrapInt p (acc + M.flatten.sum) := by
  induction M with
  | nil =>
    intro acc hacc
    simp [wrapInt_of_inRange p acc hacc]
  | cons row rest ih =>
    intro acc hacc
    simp only [List.foldl_cons, List.flatten_cons, List.sum_append]
    rw [foldl_addInt p row acc hacc, ih _ (wrapInt_inRange p _), wrapInt_add_left, Int.add_assoc]

theorem zero_inRange (p : Platform) : InIntRange p 0 := by
  cases p <;> decide

theorem Sum_eq_wrapInt (p : Platform) (M : List (List Int)) :
    MatrixProcessor.Sum p ⟨M⟩ = wrapInt p (exactSum M) := by
  unfold MatrixProcessor.Sum exactSum
  rw [foldl_rows_addInt p M 0 (zero_inRange p), Int.zero_add]

/-! ## Lemmas: `Multiply` -/

theorem foldl_mulInt (p : Platform) (row : List Int) : ∀ acc : Int, InIntRange p acc →
    row.foldl (fun product num => mulInt p product num) acc = wrapInt p (acc * row.prod) := by
  induction row with
  | nil =>
    intro acc hacc
    simp [wrapInt_of_inRange p acc hacc]
  | cons x xs ih =>
    intro acc _
    simp only [List.foldl_cons, List.prod_cons]
    rw [ih (mulInt p acc x) (wrapInt_inRange p _)]
    unfold mulInt
    rw [wrapInt_mul_left, Int.mul_assoc]

theorem foldl_rows_mulInt (p : Platform) (M : List (List Int)) : ∀ acc : Int, InIntRange p acc →
    M.foldl (fun product row => row.foldl (fun product num => mulInt p product num) product) acc
      = wrapInt p (acc * M.flatten.prod) := by
  induction M with
  | nil =>
    intro acc hacc
    simp [wrapInt_of_inRange p acc hacc]
  | cons row rest ih =>
    intro acc hacc
    simp only [List.foldl_cons, List.flatten_cons, List.prod_append]
    rw [foldl_mulInt p row acc hacc, ih _ (wrapInt_inRange p _), wrapInt_mul_left, Int.mul_assoc]

theorem one_inRange (p : Platform) : InIntRange p 1 := by
  cases p <;> decide

theorem Multiply_eq_wrapInt (p : Platform) (M : List (List Int)) :
    MatrixProcessor.Multiply p ⟨M⟩ = wrapInt p (exactProduct M) := by
  unfold MatrixProcessor.Multiply exactProduct
  rw [foldl_rows_mulInt p M 1 (one_inRange p), Int.one_mul]

theorem exactProduct_zero (M : List (List Int)) (h : ∃ row ∈ M, (0 : Int) ∈ row) :
    exactProduct M = 0 := by
  obtain ⟨row, hrow, h0⟩ := h
  unfold exactProduct
  apply List.prod_eq_zero
  exact List.mem_flatten.2 ⟨row, hrow, h0⟩

theorem Multiply_zero (p : Platform) (M : List (List Int)) (h : ∃ row ∈ M, (0 : Int) ∈ row) :
    MatrixProcessor.Multiply p ⟨M⟩ = 0 := by
  rw [Multiply_eq_wrapInt, exactProduct_zero M h]
  exact wrapInt_of_inRange p 0 (zero_inRange p)

/-! ## Lemmas: the successful path of the dispatcher -/

theorem header_get_set_self (h : Header) (key value : GoString) :
    (Header.set h key value).get key = value := by
  simp [Header.get, Header.set, List.lookup]

theorem lookup_filter_ne (h : Header) (key other : GoString) (hne : other ≠ key) :
    (h.filter (fun kv => kv.1 ≠ key)).lookup other = h.lookup other := by
  induction h with
  | nil => rfl
  | cons kv t ih =>
    obtain ⟨a, b⟩ := kv
    by_cases hak : a = key
    · subst hak
      have hoa : (other == a) = false := by simpa using hne
      simp only [List.filter, ne_eq, not_true_eq_false, decide_False, List.lookup, hoa]
      exact ih
    · have hkeep : List.filter (fun kv : GoString × GoString => decide (kv.1 ≠ key)) ((a, b) :: t)
          = (a, b) :: List.filter (fun kv => decide (kv.1 ≠ key)) t := by
        simp [List.filter, hak]
      rw [hkeep]
      by_cases hoa : other = a
      · subst hoa
        simp [List.lookup]
      · have hoa2 : (other == a) = false := by simpa using hoa
        simp only [List.lookup, hoa2]
        exact ih

theorem header_get_set_of_ne (h : Header) (key value other : GoString) (hne : other ≠ key) :
    (Header.set h key value).get other = Header.get h other := by
  have hoa : (other == key) = false := by simpa using hne
  unfold Header.get Header.set
  simp only [List.lookup, hoa]
  rw [lookup_filter_ne h key other hne]

theorem writeResult_spec (w : ResponseWriter) (result : GoString) (hw : w.wroteHeader = false) :
    (writeResult w result).panicked = false ∧
    (writeResult w result).w.code = 200 ∧
    (writeResult w result).w.body = w.body ++ result ∧
    (writeResult w result).w.sentHeader
      = Header.set w.header "Content-Type".toList "text/plain".toList := by
  simp [writeResult, ResponseWriter.Write, ResponseWriter.WriteHeader, ResponseWriter.setHeader,
    ResponseWriter.code, hw]

theorem dispatch_echo (p : Platform) (w : ResponseWriter) (mp : MatrixProcessor) :
    dispatch p w (some mp) "echo".toList = writeResult w mp.Echo := rfl

theorem dispatch_invert (p : Platform) (w : ResponseWriter) (mp : MatrixProcessor) :
    dispatch p w (some mp) "invert".toList =
      match mp.Invert with
      | none => ⟨w, true⟩
      | some result => writeResult w result := rfl

theorem dispatch_flatten (p : Platform) (w : ResponseWriter) (mp : MatrixProcessor) :
    dispatch p w (some mp) "flatten".toList = writeResult w mp.Flatten := rfl

theorem dispatch_sum (p : Platform) (w : ResponseWriter) (mp : MatrixProcessor) :
    dispatch p w (some mp) "sum".toList = writeResult w (Itoa (mp.Sum p)) := rfl

theorem dispatch_multiply (p : Platform) (w : ResponseWriter) (mp : MatrixProcessor) :
    dispatch p w (some mp) "multiply".toList =
      writeResult
        (if mp.Multiply p = 0 then
          w.setHeader "Warning".toList "Possible integer overflow detected".toList
        else w)
        (Itoa (mp.Multiply p)) := rfl

theorem HandleMatrix_accepted (p : Platform) (readAll : CsvReadAll) (w : ResponseWriter)
    (r : Request) (operation : GoString) (file : GoString) (header : Option FileHeader)
    (records : List (List GoString)) (mp : MatrixProcessor)
    (hm : r.Method = "POST".toList)
    (hct : HasPrefix r.ContentType "multipart/form-data".toList = true)
    (hff : r.FormFile = .ok (file, header))
    (hval : ValidateFileUpload file header = none)
    (hcsv : readAll file = .ok records)
    (hparse : NewMatrixProcessor p records = (some mp, none)) :
    HandleMatrix p readAll w r operation = dispatch p w (some mp) operation := by
  rw [HandleMatrix_parsed p readAll w r operation file header records hm hct hff hval hcsv,
    hparse]
  rfl

theorem NewMatrixProcessor_square (p : Platform) (records : List (List GoString))
    (M : List (List Int)) (h : NewMatrixProcessor p records = (some ⟨M⟩, none)) :
    1 ≤ M.length ∧ IsSquare M.length M := by
  obtain ⟨hne, hsq, hparse⟩ := (NewMatrixProcessor_ok_iff p records M).1 h
  rw [parseRows_ok_iff] at hparse
  have hlen : records.length = M.length := hparse.length_eq
  refine ⟨?_, rfl, ?_⟩
  · rw [← hlen]
    cases records with
    | nil => exact absurd rfl hne
    | cons a t => simp
  · intro row hrow
    obtain ⟨r, _, hr1, hr2⟩ := forall₂_mem_right hparse row hrow
    rw [← hr2.length_eq, hr1, ← hsq, hlen]

theorem withRecovery_returned (next : HandlerFunc) (w : ResponseWriter) (r : Request)
    (h : (next w r).panicked = false) : withRecovery next w r = next w r := by
  simp [withRecovery, h]

/-! ## Lemmas: upload validation -/

theorem toLower_cases (x : Char) :
    x.toLower = x ∨ (65 ≤ x.toNat ∧ x.toNat ≤ 90 ∧ x.toLower = Char.ofNat (x.toNat + 32)) := by
  unfold Char.toLower
  simp only
  split
  · rename_i h
    exact Or.inr ⟨h.1, h.2, rfl⟩
  · exact Or.inl rfl

theorem toLower_eq_iff (x t u : Char)
    (hkey : ∀ n, n < 91 → 65 ≤ n → Char.ofNat (n + 32) = t → Char.ofNat n = u)
    (ht : t.toLower = t) (hu : u.toLower = t) :
    x.toLower = t ↔ x = t ∨ x = u := by
  constructor
  · intro h
    rcases toLower_cases x with h1 | ⟨h1, h2, h3⟩
    · left; rw [← h1]; exact h
    · right
      rw [h3] at h
      have := hkey x.toNat (by omega) h1 h
      rw [Char.ofNat_toNat] at this
      exact this
  · rintro (h | h)
    · rw [h]; exact ht
    · rw [h]; exact hu

theorem toLower_eq_dot (x : Char) : x.toLower = '.' ↔ x = '.' := by
  rw [toLower_eq_iff x '.' '.' (by decide) (by decide) (by decide)]
  simp

theorem toLower_eq_c (x : Char) : x.toLower = 'c' ↔ x = 'c' ∨ x = 'C' :=
  toLower_eq_iff x 'c' 'C' (by decide) (by decide) (by decide)

theorem toLower_eq_s (x : Char) : x.toLower = 's' ↔ x = 's' ∨ x = 'S' :=
  toLower_eq_iff x 's' 'S' (by decide) (by decide) (by decide)

theorem toLower_eq_v (x : Char) : x.toLower = 'v' ↔ x = 'v' ∨ x = 'V' :=
  toLower_eq_iff x 'v' 'V' (by decide) (by decide) (by decide)

theorem map_toLower_csv (l : GoString) :
    l.map Char.toLower = ['.', 'c', 's', 'v'] ↔
      ∃ a b c, l = ['.', a, b, c] ∧ (a = 'c' ∨ a = 'C') ∧ (b = 's' ∨ b = 'S') ∧
        (c = 'v' ∨ c = 'V') := by
  constructor
  · intro h
    match l, h with
    | [d, a, b, c], h =>
      simp only [List.map_cons, List.map_nil, List.cons.injEq, and_true] at h
      obtain ⟨hd, ha, hb, hc⟩ := h
      rw [toLower_eq_dot] at hd
      subst hd
      exact ⟨a, b, c, rfl, (toLower_eq_c a).1 ha, (toLower_eq_s b).1 hb, (toLower_eq_v c).1 hc⟩
    | [], h => simp at h
    | [_], h => simp at h
    | [_, _], h => simp at h
    | [_, _, _], h => simp at h
    | _ :: _ :: _ :: _ :: _ :: _, h => simp at h
  · rintro ⟨a, b, c, rfl, ha, hb, hc⟩
    simp only [List.map_cons, List.map_nil]
    rw [(toLower_eq_c a).2 ha, (toLower_eq_s b).2 hb, (toLower_eq_v c).2 hc]
    rfl

theorem hasSuffix_csv_iff (name : GoString) :
    HasSuffix (ToLower name) ".csv".toList = true ↔ EndsInCsv name := by
  unfold HasSuffix ToLower EndsInCsv
  rw [List.isSuffixOf_iff_suffix]
  constructor
  · rintro ⟨t, ht⟩
    obtain ⟨l1, l2, hl, _, h2⟩ := List.map_eq_append_iff.1 ht.symm
    obtain ⟨a, b, c, rfl, ha, hb, hc⟩ := (map_toLower_csv l2).1 h2
    exact ⟨l1, a, b, c, hl, ha, hb, hc⟩
  · rintro ⟨stem, a, b, c, rfl, ha, hb, hc⟩
    refine ⟨stem.map Char.toLower, ?_⟩
    rw [List.map_append, (map_toLower_csv ['.', a, b, c]).2 ⟨a, b, c, rfl, ha, hb, hc⟩]
    rfl

/-! ## Lemmas: what the dispatcher writes -/

theorem writeResult_facts (w : ResponseWriter) (result : GoString)
    (hw : w.wroteHeader = false) (hb : w.body = []) :
    (writeResult w result).panicked = false ∧
    (writeResult w result).w.code = 200 ∧
    (writeResult w result).w.body = result ∧
    Header.get (writeResult w result).w.sentHeader "Content-Type".toList
      = "text/plain".toList := by
  obtain ⟨h1, h2, h3, h4⟩ := writeResult_spec w result hw
  refine ⟨h1, h2, ?_, ?_⟩
  · rw [h3, hb]; rfl
  · rw [h4]; exact header_get_set_self _ _ _

theorem warned_unwritten (c : Prop) [Decidable c] (w : ResponseWriter) (key value : GoString)
    (hw : w.wroteHeader = false) (hb : w.body = []) :
    (if c then w.setHeader key value else w).wroteHeader = false ∧
    (if c then w.setHeader key value else w).body = [] := by
  split
  · exact ⟨hw, hb⟩
  · exact ⟨hw, hb⟩

theorem HandleMatrix_rejected (p : Platform) (readAll : CsvReadAll) (w : ResponseWriter)
    (r : Request) (operation : GoString) (file : GoString) (header : Option FileHeader)
    (records : List (List GoString))
    (hm : r.Method = "POST".toList)
    (hct : HasPrefix r.ContentType "multipart/form-data".toList = true)
    (hff : r.FormFile = .ok (file, header))
    (hval : ValidateFileUpload file header = none)
    (hcsv : readAll file = .ok records)
    (hrej : (NewMatrixProcessor p records).2 ≠ none)
    (hop : operation ∈ knownOperations) :
    HandleMatrix p readAll w r operation
      = ⟨httpError w "Internal server error processing matrix".toList 500, true⟩ := by
  have hnil : (NewMatrixProcessor p records).1 = none := by
    rcases NewMatrixProcessor_total p records with ⟨mp, h⟩ | ⟨e, h⟩
    · rw [h] at hrej; exact absurd rfl hrej
    · rw [h]
  rw [HandleMatrix_parsed p readAll w r operation file header records hm hct hff hval hcsv,
    if_pos hrej, hnil, dispatch_nil p _ operation hop]

/-! ## Lemmas: `Flatten` against `Echo` -/

theorem Join_append (sep : GoString) (l1 l2 : List GoString) (h1 : l1 ≠ []) (h2 : l2 ≠ []) :
    Join (l1 ++ l2) sep = Join l1 sep ++ sep ++ Join l2 sep := by
  cases l1 with
  | nil => exact absurd rfl h1
  | cons a r1 =>
    cases l2 with
    | nil => exact absurd rfl h2
    | cons b r2 =>
      rw [List.cons_append, Join_cons, Join_cons, Join_cons]
      simp [List.append_assoc]

theorem Join_Join (sep : GoString) (L : List (List GoString)) (h : ∀ l ∈ L, l ≠ []) :
    Join (L.map fun l => Join l sep) sep = Join L.flatten sep := by
  induction L with
  | nil => rfl
  | cons l rest ih =>
    have hl : l ≠ [] := h l (List.mem_cons_self _ _)
    have hrest : ∀ x ∈ rest, x ≠ [] := fun x hx => h x (List.mem_cons_of_mem _ hx)
    cases rest with
    | nil => simp [Join]
    | cons l2 rest2 =>
      have hflat : (l2 :: rest2).flatten ≠ [] := by
        have := hrest l2 (List.mem_cons_self _ _)
        intro hc
        rw [List.flatten_cons] at hc
        exact this (List.append_eq_nil.1 hc).1
      have hstep : Join ((l :: l2 :: rest2).map fun l => Join l sep) sep
          = Join l sep ++ sep ++ Join ((l2 :: rest2).map fun l => Join l sep) sep := by
        simp [Join]
      rw [hstep, ih hrest]
      rw [show (l :: l2 :: rest2).flatten = l ++ (l2 :: rest2).flatten from rfl,
        Join_append sep l _ hl hflat]

theorem ReplaceAll_of_absent (s : GoString) (old new : Char) (h : ∀ c ∈ s, c ≠ old) :
    ReplaceAll s old new = s := by
  unfold ReplaceAll
  induction s with
  | nil => rfl
  | cons c t ih =>
    have hc : c ≠ old := h c (List.mem_cons_self _ _)
    simp only [List.map_cons, hc, if_false]
    rw [ih (fun d hd => h d (List.mem_cons_of_mem _ hd))]

theorem ReplaceAll_append (s t : GoString) (old new : Char) :
    ReplaceAll (s ++ t) old new = ReplaceAll s old new ++ ReplaceAll t old new := by
  simp [ReplaceAll]

theorem ReplaceAll_Join (old new : Char) (xs : List GoString)
    (h : ∀ x ∈ xs, ∀ c ∈ x, c ≠ old) :
    ReplaceAll (Join xs [old]) old new = Join xs [new] := by
  induction xs with
  | nil => rfl
  | cons a rest ih =>
    have ha := ReplaceAll_of_absent a old new (h a (List.mem_cons_self _ _))
    cases rest with
    | nil => simpa [Join] using ha
    | cons b rest2 =>
      have hrec := ih (fun x hx => h x (List.mem_cons_of_mem _ hx))
      have hstep : ∀ sep : GoString,
          Join (a :: b :: rest2) sep = a ++ sep ++ Join (b :: rest2) sep := by
        intro sep; simp [Join]
      rw [hstep, hstep, ReplaceAll_append, ReplaceAll_append, ha, hrec]
      simp [ReplaceAll]

/-! ## Theorems -/

/-- C1: round trip. For a square matrix of `int` values with at least one row, the
text `Echo` renders, split at newlines and then at commas, is accepted by
`NewMatrixProcessor`, and the processor returned holds the same matrix. -/
theorem echo_round_trip (p : Platform) (n : Nat) (M : List (List Int)) (hn : 1 ≤ n)
    (hsq : IsSquare n M) (hr : AllInRange p M) :
    NewMatrixProcessor p (splitRecords (MatrixProcessor.Echo ⟨M⟩)) = (some ⟨M⟩, none) := by
  obtain ⟨hne, hrne⟩ := square_rows_ne_nil n M hn hsq
  have hsplit : splitRecords (MatrixProcessor.Echo ⟨M⟩) = M.map (fun row => row.map Itoa) :=
    splitRecords_Echo M hne hrne
  rw [hsplit]
  exact NewMatrixProcessor_Itoa p n M hn hsq hr

/-- Witness of C1 on the matrix of the test suite. -/
theorem echo_round_trip_witness :
    (1 ≤ 2 ∧ IsSquare 2 [[1, 2], [3, 4]] ∧ AllInRange .bits64 [[1, 2], [3, 4]]) ∧
      NewMatrixProcessor .bits64 (splitRecords (MatrixProcessor.Echo ⟨[[1, 2], [3, 4]]⟩))
        = (some ⟨[[1, 2], [3, 4]]⟩, none) :=
  ⟨by decide, echo_round_trip .bits64 2 [[1, 2], [3, 4]] (by decide) (by decide) (by decide)⟩

/-- C2: `NewMatrixProcessor` returns a processor and no error exactly on the valid
records (non-empty, square, all rows of one length, every trimmed field a base-10
signed integer in `int` range); the matrix returned is then square of size at least 1
and its cell [i][j] is the value of the trimmed field [i][j]; on all other records
it returns an error and no processor. -/
theorem newMatrixProcessor_succeeds_iff_valid (p : Platform) (records : List (List GoString)) :
    ((∃ mp, NewMatrixProcessor p records = (some mp, none)) ↔ ValidRecords p records) ∧
    (∀ mp, (NewMatrixProcessor p records).1 = some mp →
      1 ≤ records.length ∧ IsSquare records.length mp.matrix ∧
      ∀ i j, i < records.length → j < records.length →
        IsBase10Int (TrimSpace (field records i j)) (cell mp.matrix i j) ∧
          InIntRange p (cell mp.matrix i j)) ∧
    (¬ ValidRecords p records → ∃ e, NewMatrixProcessor p records = (none, some e)) := by
  have hiff : (∃ mp, NewMatrixProcessor p records = (some mp, none)) ↔ ValidRecords p records := by
    rw [validRecords_iff_parse]
    constructor
    · rintro ⟨⟨M⟩, h⟩
      obtain ⟨h1, h2, h3⟩ := (NewMatrixProcessor_ok_iff p records M).1 h
      exact ⟨h1, h2, M, h3⟩
    · rintro ⟨h1, h2, M, h3⟩
      exact ⟨⟨M⟩, (NewMatrixProcessor_ok_iff p records M).2 ⟨h1, h2, h3⟩⟩
  refine ⟨hiff, ?_, ?_⟩
  · rintro ⟨M⟩ hmp
    have hres : NewMatrixProcessor p records = (some ⟨M⟩, none) := by
      rcases NewMatrixProcessor_total p records with ⟨mp, h⟩ | ⟨e, h⟩
      · rw [h] at hmp ⊢
        simp only [Option.some.injEq] at hmp
        rw [hmp]
      · rw [h] at hmp
        cases hmp
    obtain ⟨hne, hsq, hparse⟩ := (NewMatrixProcessor_ok_iff p records M).1 hres
    rw [parseRows_ok_iff] at hparse
    have hlen : records.length = M.length := hparse.length_eq
    refine ⟨?_, ⟨hlen.symm, ?_⟩, ?_⟩
    · cases records with
      | nil => exact absurd rfl hne
      | cons a t => simp
    · intro row hrow
      obtain ⟨r, _, hr1, hr2⟩ := forall₂_mem_right hparse row hrow
      rw [← hr2.length_eq, hr1, ← hsq]
    · intro i j hi hj
      have hrow := forall₂_getD ([] : List GoString) ([] : List Int) hparse i hi
      have hj2 : j < (records.getD i []).length := by rw [hrow.1, ← hsq]; exact hj
      have hcell := forall₂_getD ([] : GoString) (0 : Int) hrow.2 j hj2
      exact (Atoi_eq_some_iff p _ _).1 hcell
  · intro hnv
    rcases NewMatrixProcessor_total p records with h | h
    · exact absurd (hiff.1 h) hnv
    · exact h

/-- Witness of C2: the records of the test "Echo Success" are accepted, and the matrix
returned is square of size 2 and holds the values of the fields. -/
theorem newMatrixProcessor_succeeds_iff_valid_witness :
    (NewMatrixProcessor .bits64 (splitRecords "1,2\n3,4".toList)).1
        = some ⟨[[1, 2], [3, 4]]⟩ ∧
      (1 ≤ (splitRecords "1,2\n3,4".toList).length ∧
        IsSquare (splitRecords "1,2\n3,4".toList).length [[1, 2], [3, 4]] ∧
        ∀ i j, i < (splitRecords "1,2\n3,4".toList).length →
          j < (splitRecords "1,2\n3,4".toList).length →
          IsBase10Int (TrimSpace (field (splitRecords "1,2\n3,4".toList) i j))
              (cell [[1, 2], [3, 4]] i j) ∧
            InIntRange .bits64 (cell [[1, 2], [3, 4]] i j)) :=
  ⟨by decide,
    (newMatrixProcessor_succeeds_iff_valid .bits64 (splitRecords "1,2\n3,4".toList)).2.1
      ⟨[[1, 2], [3, 4]]⟩ (by decide)⟩

/-- C4, as stated, fails: with a non-integer field in row 0 and a short row 1, the
constructor reports the field of row 0, not the length of row 1. -/
theorem row_length_check_not_before_parsing :
    raggedAfterBadField.length = 2 ∧ (raggedAfterBadField.headD []).length = 2 ∧
      (raggedAfterBadField.getD 1 []).length ≠ 2 ∧
      NewMatrixProcessor .bits64 raggedAfterBadField
        = (none, some "invalid integer at position [0,0]: a".toList) ∧
      NewMatrixProcessor .bits64 raggedAfterBadField
        ≠ (none, some "inconsistent row length at row 1".toList) := by
  decide

/-- C4, amended: the length of a row is checked before the fields of that row and of
the later rows are parsed, and after the fields of the earlier rows. If the records
have as many rows as the first row has fields, row `i` is the first row of another
length, and every field of the rows before it is a base-10 signed integer in `int`
range after trimming, the constructor fails with "inconsistent row length at row i",
whatever row `i` and the later rows contain. -/
theorem inconsistent_row_length_error (p : Platform) (records : List (List GoString)) (i : Nat)
    (hsq : records.length = (records.headD []).length)
    (hi : i < records.length)
    (hbad : (records.getD i []).length ≠ records.length)
    (hfirst : ∀ k, k < i → (records.getD k []).length = records.length)
    (hfields : ∀ k, k < i → ∀ f ∈ records.getD k [],
      ∃ v, IsBase10Int (TrimSpace f) v ∧ InIntRange p v) :
    NewMatrixProcessor p records
      = (none, some ("inconsistent row length at row ".toList ++ Itoa (i : Int))) := by
  have hgood : ∀ g ∈ records.take i, GoodRecord p records.length g := by
    intro g hg
    obtain ⟨k, hk, _, hkg⟩ := mem_take_getD records i [] g hg
    subst hkg
    refine ⟨hfirst k hk, ?_⟩
    intro f hf
    obtain ⟨v, hv⟩ := hfields k hk f hf
    exact ⟨v, (Atoi_eq_some_iff p _ v).2 hv⟩
  have herr := parseRows_error_length p records.length (records.getD i [])
    (records.drop (i + 1)) hbad (records.take i) 0 hgood
  rw [← split_at_index records i hi []] at herr
  have htake : (records.take i).length = i := by
    rw [List.length_take]; omega
  rw [Nat.zero_add, htake] at herr
  cases records with
  | nil => exact absurd hi (by simp)
  | cons first rest =>
    simp only [List.headD_cons] at hsq
    simp only [NewMatrixProcessor]
    rw [if_neg (by simpa using hsq), ← hsq, herr]

/-- Witness of the amended C4: a short row after a good one. -/
theorem inconsistent_row_length_error_witness :
    NewMatrixProcessor .bits64 [["1".toList, "2".toList], ["x".toList]]
      = (none, some ("inconsistent row length at row ".toList ++ Itoa ((1 : Nat) : Int))) :=
  inconsistent_row_length_error .bits64 [["1".toList, "2".toList], ["x".toList]] 1
    (by decide) (by decide) (by decide)
    (by intro k hk; interval_cases k; decide)
    (by
      intro k hk f hf
      interval_cases k
      have h2 : f = "1".toList ∨ f = "2".toList := by simpa using hf
      rcases h2 with h | h
      · subst h
        exact ⟨1, (Atoi_eq_some_iff .bits64 _ 1).1 (by decide)⟩
      · subst h
        exact ⟨2, (Atoi_eq_some_iff .bits64 _ 2).1 (by decide)⟩)

/-- C5, as stated, fails: the field at [0,0] is a base-10 signed integer (too large
for `int`), the first field that is not one is "a" at [0,1], and the constructor
reports position [0,0] with the text of that field, not [0,1]. -/
theorem first_non_integer_not_reported :
    (overflowThenLetter ≠ [] ∧ overflowThenLetter.length = (overflowThenLetter.headD []).length ∧
      ∀ row ∈ overflowThenLetter, row.length = overflowThenLetter.length) ∧
    (∃ v, IsBase10Int (TrimSpace (field overflowThenLetter 0 0)) v) ∧
    (¬ ∃ v, IsBase10Int (TrimSpace (field overflowThenLetter 0 1)) v) ∧
    NewMatrixProcessor .bits64 overflowThenLetter
      = (none, some "invalid integer at position [0,0]: 99999999999999999999".toList) ∧
    NewMatrixProcessor .bits64 overflowThenLetter
      ≠ (none, some "invalid integer at position [0,1]: a".toList) := by
  refine ⟨by decide, ?_, ?_, by decide, by decide⟩
  · have h : TrimSpace (field overflowThenLetter 0 0) = "99999999999999999999".toList := by
      decide
    rw [h]
    exact ⟨99999999999999999999, "99999999999999999999".toList, by decide, by decide,
      Or.inl ⟨rfl, by decide⟩⟩
  · have h : TrimSpace (field overflowThenLetter 0 1) = ['a'] := by decide
    rw [h]
    rintro ⟨v, hv⟩
    have h2 := (IsBase10Int_unsigned 'a' [] v (by decide) (by decide)).1 hv
    exact absurd (h2.1 'a' (List.mem_cons_self _ _)) (by decide)

/-- C5, amended: on records that are non-empty, square and of rows of one length, if
some field, once trimmed, is not a base-10 signed integer in the range of `int` (not
an integer at all, or one that overflows `int`), the constructor fails with
"invalid integer at position [i,j]: v" where (i,j) is the position of the first such
field in row-major order and `v` its text as given. -/
theorem invalid_integer_error (p : Platform) (records : List (List GoString)) (i j : Nat)
    (hsq : records.length = (records.headD []).length)
    (hrows : ∀ row ∈ records, row.length = records.length)
    (hi : i < records.length) (hj : j < records.length)
    (hbad : ¬ ∃ v, IsBase10Int (TrimSpace (field records i j)) v ∧ InIntRange p v)
    (hfirst : ∀ k l, k < records.length → l < records.length → (k < i ∨ (k = i ∧ l < j)) →
      ∃ v, IsBase10Int (TrimSpace (field records k l)) v ∧ InIntRange p v) :
    NewMatrixProcessor p records
      = (none, some ("invalid integer at position [".toList ++ Itoa (i : Int) ++ ",".toList
          ++ Itoa (j : Int) ++ "]: ".toList ++ field records i j)) := by
  have hgood : ∀ g ∈ records.take i, GoodRecord p records.length g := by
    intro g hg
    obtain ⟨k, hk, hk2, hkg⟩ := mem_take_getD records i [] g hg
    have hglen : g.length = records.length := hrows g (List.mem_of_mem_take hg)
    refine ⟨hglen, ?_⟩
    intro f hf
    obtain ⟨l, hl, hlf⟩ := mem_getD g [] f hf
    obtain ⟨v, hv⟩ := hfirst k l hk2 (by omega) (Or.inl hk)
    have hfield : field records k l = f := by
      unfold field; rw [hkg, hlf]
    rw [hfield] at hv
    exact ⟨v, (Atoi_eq_some_iff p _ v).2 hv⟩
  have hrlen : (records.getD i []).length = records.length :=
    hrows _ (getD_mem records [] i hi)
  have hj2 : j < (records.getD i []).length := by omega
  have hfpre : ∀ g ∈ (records.getD i []).take j, ∃ v, Atoi p (TrimSpace g) = some v := by
    intro g hg
    obtain ⟨l, hl, hl2, hlg⟩ := mem_take_getD (records.getD i []) j [] g hg
    obtain ⟨v, hv⟩ := hfirst i l hi (by omega) (Or.inr ⟨rfl, hl⟩)
    have hfield : field records i l = g := by
      unfold field; rw [hlg]
    rw [hfield] at hv
    exact ⟨v, (Atoi_eq_some_iff p _ v).2 hv⟩
  have hf : Atoi p (TrimSpace ((records.getD i []).getD j [])) = none := by
    cases h : Atoi p (TrimSpace ((records.getD i []).getD j [])) with
    | none => rfl
    | some v => exact absurd ⟨v, (Atoi_eq_some_iff p _ v).1 h⟩ hbad
  have hsplit := split_at_index (records.getD i []) j hj2 []
  have herr := parseRows_error_field p records.length ((records.getD i []).take j)
    ((records.getD i []).getD j []) ((records.getD i []).drop (j + 1)) (records.drop (i + 1))
    (by rw [← hsplit]; exact hrlen) hfpre hf (records.take i) 0 hgood
  rw [← hsplit, ← split_at_index records i hi []] at herr
  have htake : (records.take i).length = i := by
    rw [List.length_take]; omega
  have htake2 : ((records.getD i []).take j).length = j := by
    rw [List.length_take]; omega
  rw [Nat.zero_add, htake, htake2] at herr
  cases records with
  | nil => exact absurd hi (by simp)
  | cons first rest =>
    simp only [List.headD_cons] at hsq
    simp only [NewMatrixProcessor]
    rw [if_neg (by simpa using hsq), ← hsq, herr]
    rfl

/-- Witness of the amended C5 on the records of the test "Echo Invalid Numbers". -/
theorem invalid_integer_error_witness :
    NewMatrixProcessor .bits64 [["1".toList, "a".toList], ["3".toList, "4".toList]]
      = (none, some ("invalid integer at position [".toList ++ Itoa ((0 : Nat) : Int)
          ++ ",".toList ++ Itoa ((1 : Nat) : Int) ++ "]: ".toList
          ++ field [["1".toList, "a".toList], ["3".toList, "4".toList]] 0 1)) :=
  invalid_integer_error .bits64 [["1".toList, "a".toList], ["3".toList, "4".toList]] 0 1
    (by decide) (by decide) (by decide) (by decide)
    (by
      rintro ⟨v, hv, _⟩
      have h2 := (IsBase10Int_unsigned 'a' [] v (by decide) (by decide)).1 hv
      exact absurd (h2.1 'a' (List.mem_cons_self _ _)) (by decide))
    (by
      intro k l hk hl h
      have hkl : k = 0 ∧ l = 0 := by
        rcases h with h | h
        · omega
        · omega
      obtain ⟨rfl, rfl⟩ := hkl
      exact ⟨1, (Atoi_eq_some_iff .bits64 _ 1).1 (by decide)⟩)

/-- C3: a POST multipart request whose file passes upload validation and whose CSV
records `NewMatrixProcessor` rejects is answered with status 500 by the handler
registered on each of the five routes (`withRecovery` around `HandleMatrix`), and the
registered handler returns normally. -/
theorem rejected_records_answer_500 (p : Platform) (readAll : CsvReadAll) (w : ResponseWriter)
    (r : Request) (file : GoString) (header : Option FileHeader)
    (records : List (List GoString))
    (hw : w.wroteHeader = false)
    (hm : r.Method = "POST".toList)
    (hct : HasPrefix r.ContentType "multipart/form-data".toList = true)
    (hff : r.FormFile = .ok (file, header))
    (hval : ValidateFileUpload file header = none)
    (hcsv : readAll file = .ok records)
    (hrej : (NewMatrixProcessor p records).2 ≠ none) :
    ∀ path ∈ routePaths, ∃ h, routeHandler p readAll path = some h ∧
      (h w r).w.code = 500 ∧ (h w r).panicked = false := by
  have hnil : (NewMatrixProcessor p records).1 = none := by
    rcases NewMatrixProcessor_total p records with ⟨mp, h⟩ | ⟨e, h⟩
    · rw [h] at hrej; exact absurd rfl hrej
    · rw [h]
  have hrun : ∀ op ∈ knownOperations,
      HandleMatrix p readAll w r op
        = ⟨httpError w "Internal server error processing matrix".toList 500, true⟩ := by
    intro op hop
    rw [HandleMatrix_parsed p readAll w r op file header records hm hct hff hval hcsv,
      if_pos hrej, hnil, dispatch_nil p _ op hop]
  have hrec : ∀ op ∈ knownOperations,
      ((withRecovery fun w r => HandleMatrix p readAll w r op) w r).w.code = 500 ∧
      ((withRecovery fun w r => HandleMatrix p readAll w r op) w r).panicked = false := by
    intro op hop
    have h1 := httpError_unwritten w "Internal server error processing matrix".toList 500 hw
    have h2 := httpError_written
      (httpError w "Internal server error processing matrix".toList 500)
      "Internal server error".toList 500 h1.1
    have hout := hrun op hop
    simp only [withRecovery, hout, if_true]
    exact ⟨by rw [ResponseWriter.code, if_pos h2.1, h2.2, h1.2], trivial⟩
  intro path hpath
  simp only [routePaths, List.mem_cons, List.mem_singleton, List.not_mem_nil,
    or_false] at hpath
  rcases hpath with h | h | h | h | h <;> subst h
  · exact ⟨_, rfl, hrec "echo".toList (by decide)⟩
  · exact ⟨_, rfl, hrec "invert".toList (by decide)⟩
  · exact ⟨_, rfl, hrec "flatten".toList (by decide)⟩
  · exact ⟨_, rfl, hrec "sum".toList (by decide)⟩
  · exact ⟨_, rfl, hrec "multiply".toList (by decide)⟩

/-- Witness of C3 on the upload of the test "Echo Non-Square Matrix", route `/echo`. -/
theorem rejected_records_answer_500_witness :
    ∃ h, routeHandler .bits64 plainReadAll "/echo".toList = some h ∧
      (h ResponseWriter.fresh (testRequest "1,2\n3,4,5".toList "invalid.csv".toList)).w.code
        = 500 ∧
      (h ResponseWriter.fresh (testRequest "1,2\n3,4,5".toList "invalid.csv".toList)).panicked
        = false :=
  rejected_records_answer_500 .bits64 plainReadAll ResponseWriter.fresh
    (testRequest "1,2\n3,4,5".toList "invalid.csv".toList) "1,2\n3,4,5".toList
    (some ⟨"invalid.csv".toList, 9⟩) (splitRecords "1,2\n3,4,5".toList)
    rfl rfl (by decide) rfl (by decide) rfl (by decide) "/echo".toList (by decide)

/-- C6: for a square matrix `M` of size `n` and the matrix `T` with `T[i][j] = M[j][i]`,
`Invert` on `M` returns the string `Echo` returns on `T`: `n` lines joined by newlines,
line `i` being the decimal renderings of `M[0][i]`, ..., `M[n-1][i]` joined by commas. -/
theorem invert_is_echo_of_transpose (n : Nat) (M T : List (List Int)) (hsq : IsSquare n M)
    (hT : IsSquare n T) (hcells : ∀ i j, i < n → j < n → cell T i j = cell M j i) :
    MatrixProcessor.Invert ⟨M⟩ = some (MatrixProcessor.Echo ⟨T⟩) ∧
    MatrixProcessor.Invert ⟨M⟩ = some (Join ((List.range n).map fun i =>
      Join ((List.range n).map fun j => Itoa (cell M j i)) ",".toList) "\n".toList) := by
  have hTeq : T = transposed n M := by
    apply matrix_ext n T (transposed n M) hT (transposed_square n M)
    intro i j hi hj
    rw [hcells i j hi hj, cell_transposed n M i j hi hj]
  have hinv : MatrixProcessor.Invert ⟨M⟩ = some (writeRows 0 (transposed n M) []) := by
    unfold MatrixProcessor.Invert
    rw [invertedMatrix_square n M hsq]
  constructor
  · rw [hinv, hTeq]; rfl
  · rw [hinv, writeRows_zero]
    simp [transposed, rowLine, List.map_map, Function.comp_def]

/-- Witness of C6 on the matrix of the test "Invert Success". -/
theorem invert_is_echo_of_transpose_witness :
    MatrixProcessor.Invert ⟨[[1, 2], [3, 4]]⟩ = some (MatrixProcessor.Echo ⟨[[1, 3], [2, 4]]⟩) ∧
    MatrixProcessor.Invert ⟨[[1, 2], [3, 4]]⟩ = some (Join ((List.range 2).map fun i =>
      Join ((List.range 2).map fun j => Itoa (cell [[1, 2], [3, 4]] j i)) ",".toList)
        "\n".toList) :=
  invert_is_echo_of_transpose 2 [[1, 2], [3, 4]] [[1, 3], [2, 4]] (by decide) (by decide)
    (by
      intro i j hi hj
      interval_cases i <;> interval_cases j <;> rfl)

/-- C7: `Invert` is self-inverse. For a square matrix `M` of `int` values with at least
one row, `Invert` returns a text; that text, split at newlines and commas, is accepted
by `NewMatrixProcessor`; and `Invert` on the processor returned gives `Echo` of `M`.
The transposition `Invert` computes, applied twice, gives `M` back. -/
theorem invert_self_inverse (p : Platform) (n : Nat) (M : List (List Int)) (hn : 1 ≤ n)
    (hsq : IsSquare n M) (hr : AllInRange p M) :
    (∃ s mp, MatrixProcessor.Invert ⟨M⟩ = some s ∧
      NewMatrixProcessor p (splitRecords s) = (some mp, none) ∧
      mp.Invert = some (MatrixProcessor.Echo ⟨M⟩)) ∧
    (∃ T, invertedMatrix M = some T ∧ invertedMatrix T = some M) := by
  have hT := transposed_square n M
  have hback : transposed n (transposed n M) = M := by
    apply matrix_ext n _ M (transposed_square n _) hsq
    intro i j hi hj
    rw [cell_transposed n _ i j hi hj, cell_transposed n M j i hj hi]
  have hinv2 : invertedMatrix (transposed n M) = some M := by
    rw [invertedMatrix_square n _ hT, hback]
  refine ⟨⟨writeRows 0 (transposed n M) [], ⟨transposed n M⟩, ?_, ?_, ?_⟩,
    ⟨transposed n M, invertedMatrix_square n M hsq, hinv2⟩⟩
  · unfold MatrixProcessor.Invert
    rw [invertedMatrix_square n M hsq]
  · obtain ⟨hne, hrne⟩ := square_rows_ne_nil n _ hn hT
    have hsplit := splitRecords_Echo (transposed n M) hne hrne
    unfold MatrixProcessor.Echo at hsplit
    rw [hsplit]
    exact NewMatrixProcessor_Itoa p n _ hn hT (transposed_inRange p n M hsq hr)
  · unfold MatrixProcessor.Invert
    simp only [hinv2]
    rfl

/-- Witness of C7 on the matrix of the test suite. -/
theorem invert_self_inverse_witness :
    (∃ s mp, MatrixProcessor.Invert ⟨[[1, 2], [3, 4]]⟩ = some s ∧
      NewMatrixProcessor .bits64 (splitRecords s) = (some mp, none) ∧
      mp.Invert = some (MatrixProcessor.Echo ⟨[[1, 2], [3, 4]]⟩)) ∧
    (∃ T, invertedMatrix [[1, 2], [3, 4]] = some T ∧ invertedMatrix T = some [[1, 2], [3, 4]]) :=
  invert_self_inverse .bits64 2 [[1, 2], [3, 4]] (by decide) (by decide) (by decide)

/-- C8: for a square matrix of size `n`, `Flatten` has no newline and is the
comma-join of exactly `n * n` comma-free fields, field `k` being the decimal
rendering of `M[k / n][k mod n]` (row-major order); for `n ≥ 1` these fields are what
splitting the text at commas gives. -/
theorem flatten_row_major (n : Nat) (M : List (List Int)) (hsq : IsSquare n M) :
    (∀ c ∈ MatrixProcessor.Flatten ⟨M⟩, c ≠ '\n') ∧
    ∃ fields : List GoString,
      MatrixProcessor.Flatten ⟨M⟩ = Join fields ",".toList ∧
      fields.length = n * n ∧
      (∀ f ∈ fields, ∀ c ∈ f, c ≠ ',') ∧
      (∀ k, k < n * n → fields.getD k [] = Itoa (cell M (k / n) (k % n))) ∧
      (1 ≤ n → splitAt ',' (MatrixProcessor.Flatten ⟨M⟩) = fields) := by
  obtain ⟨hlen, hrows⟩ := hsq
  have hflat : M.flatten.length = n * n := by
    rw [length_flatten_uniform n M hrows, hlen]
  constructor
  · rw [Flatten_eq_Join]
    apply Join_no_char
    · intro c hc
      simp only [String.toList, List.mem_singleton] at hc
      subst hc; decide
    · intro x hx
      rcases List.mem_map.1 hx with ⟨v, _, rfl⟩
      exact Itoa_no_newline v
  · refine ⟨M.flatten.map Itoa, Flatten_eq_Join M, by rw [List.length_map]; exact hflat,
      ?_, ?_, ?_⟩
    · intro f hf
      rcases List.mem_map.1 hf with ⟨v, _, rfl⟩
      exact Itoa_no_comma v
    · intro k hk
      have hk1 : k < (M.flatten.map Itoa).length := by rw [List.length_map, hflat]; exact hk
      have hk2 : k < M.flatten.length := by omega
      rw [List.getD_eq_getElem _ _ hk1, List.getElem_map,
        ← List.getD_eq_getElem M.flatten 0 hk2,
        getD_flatten_uniform n M hrows k (by rw [hlen]; exact hk)]
    · intro hn
      rw [Flatten_eq_Join]
      apply splitAt_Join
      · intro h
        have h0 : (M.flatten.map Itoa).length = 0 := by rw [h]; rfl
        rw [List.length_map, hflat] at h0
        have : 1 ≤ n * n := Nat.mul_pos hn hn
        omega
      · intro x hx
        rcases List.mem_map.1 hx with ⟨v, _, rfl⟩
        exact Itoa_no_comma v

/-- Witness of C8 on the matrix of the test "Flatten Success". -/
theorem flatten_row_major_witness :
    (∀ c ∈ MatrixProcessor.Flatten ⟨[[1, 2], [3, 4]]⟩, c ≠ '\n') ∧
    ∃ fields : List GoString,
      MatrixProcessor.Flatten ⟨[[1, 2], [3, 4]]⟩ = Join fields ",".toList ∧
      fields.length = 2 * 2 ∧
      (∀ f ∈ fields, ∀ c ∈ f, c ≠ ',') ∧
      (∀ k, k < 2 * 2 → fields.getD k [] = Itoa (cell [[1, 2], [3, 4]] (k / 2) (k % 2))) ∧
      (1 ≤ 2 → splitAt ',' (MatrixProcessor.Flatten ⟨[[1, 2], [3, 4]]⟩) = fields) :=
  flatten_row_major 2 [[1, 2], [3, 4]] (by decide)

/-- C9: `Sum` is the exact sum of all elements reduced modulo `2 ^ w` and read as a
signed `w`-bit value, `w` the width of `int`; it is congruent to the exact sum modulo
`2 ^ w` and lies in the range of `int`; it is the exact sum when that fits in the
range. This holds for every matrix, square or not. -/
theorem sum_wraps_at_int_width (p : Platform) (M : List (List Int)) :
    MatrixProcessor.Sum p ⟨M⟩ = toSigned p (exactSum M % (2 : Int) ^ p.intSize) ∧
    MatrixProcessor.Sum p ⟨M⟩ ≡ exactSum M [ZMOD (2 : Int) ^ p.intSize] ∧
    InIntRange p (MatrixProcessor.Sum p ⟨M⟩) ∧
    (InIntRange p (exactSum M) → MatrixProcessor.Sum p ⟨M⟩ = exactSum M) := by
  rw [Sum_eq_wrapInt]
  exact ⟨wrapInt_eq_toSigned p _, wrapInt_modEq p _, wrapInt_inRange p _,
    wrapInt_of_inRange p _⟩

/-- Witness of C9: the sum of the test "Sum Success" is exact. -/
theorem sum_wraps_at_int_width_witness :
    InIntRange .bits64 (exactSum [[1, 2], [3, 4]]) ∧
      MatrixProcessor.Sum .bits64 ⟨[[1, 2], [3, 4]]⟩ = exactSum [[1, 2], [3, 4]] :=
  ⟨by decide, (sum_wraps_at_int_width .bits64 [[1, 2], [3, 4]]).2.2.2 (by decide)⟩

/-- C10: `Sum` does not depend on the arrangement of the elements: two matrices whose
elements are a permutation of each other have the same `Sum`, wrap-around included.
The matrices need not be square. -/
theorem sum_order_independent (p : Platform) (M1 M2 : List (List Int))
    (hperm : List.Perm M1.flatten M2.flatten) :
    MatrixProcessor.Sum p ⟨M1⟩ = MatrixProcessor.Sum p ⟨M2⟩ := by
  rw [Sum_eq_wrapInt, Sum_eq_wrapInt]
  unfold exactSum
  rw [hperm.sum_eq]

/-- Witness of C10: two arrangements of four elements whose running sum wraps in one
order (the largest `int` first) and not in the other. -/
theorem sum_order_independent_witness :
    List.Perm (List.flatten [[9223372036854775807, 1], [-1, 0]])
        (List.flatten [[-1, 0], [1, 9223372036854775807]]) ∧
      MatrixProcessor.Sum .bits64 ⟨[[9223372036854775807, 1], [-1, 0]]⟩
        = MatrixProcessor.Sum .bits64 ⟨[[-1, 0], [1, 9223372036854775807]]⟩ :=
  ⟨by decide, sum_order_independent .bits64 _ _ (by decide)⟩

/-- C11: `Multiply` is the exact product of all elements, accumulated from 1, reduced
modulo `2 ^ w` and read as a signed `w`-bit value, `w` the width of `int`; it is
congruent to the exact product modulo `2 ^ w` and lies in the range of `int`; it is
the exact product when that fits in the range. This holds for every matrix, square or
not. -/
theorem multiply_wraps_at_int_width (p : Platform) (M : List (List Int)) :
    MatrixProcessor.Multiply p ⟨M⟩ = toSigned p (exactProduct M % (2 : Int) ^ p.intSize) ∧
    MatrixProcessor.Multiply p ⟨M⟩ ≡ exactProduct M [ZMOD (2 : Int) ^ p.intSize] ∧
    InIntRange p (MatrixProcessor.Multiply p ⟨M⟩) ∧
    (InIntRange p (exactProduct M) → MatrixProcessor.Multiply p ⟨M⟩ = exactProduct M) := by
  rw [Multiply_eq_wrapInt]
  exact ⟨wrapInt_eq_toSigned p _, wrapInt_modEq p _, wrapInt_inRange p _,
    wrapInt_of_inRange p _⟩

/-- Witness of C11: the product of the test "Multiply Success" is exact. -/
theorem multiply_wraps_at_int_width_witness :
    InIntRange .bits64 (exactProduct [[1, 2], [3, 4]]) ∧
      MatrixProcessor.Multiply .bits64 ⟨[[1, 2], [3, 4]]⟩ = exactProduct [[1, 2], [3, 4]] :=
  ⟨by decide, (multiply_wraps_at_int_width .bits64 [[1, 2], [3, 4]]).2.2.2 (by decide)⟩

/-- C12: a zero factor gives 0 and is not an error. `Multiply` returns 0 on every
matrix with an element equal to 0, whatever the other elements are. A request that
passes the method, content-type, file and upload checks and whose records parse to
such a matrix is answered by the multiply operation, and by the route `/multiply`,
with status 200, body "0" and the `Warning` header sent; the handler returns
normally. -/
theorem zero_factor_gives_zero (p : Platform) :
    (∀ M : List (List Int), (∃ row ∈ M, (0 : Int) ∈ row) →
      MatrixProcessor.Multiply p ⟨M⟩ = 0) ∧
    (∀ (readAll : CsvReadAll) (w : ResponseWriter) (r : Request) (file : GoString)
      (header : Option FileHeader) (records : List (List GoString)) (M : List (List Int)),
      w.wroteHeader = false → w.body = [] →
      r.Method = "POST".toList →
      HasPrefix r.ContentType "multipart/form-data".toList = true →
      r.FormFile = .ok (file, header) →
      ValidateFileUpload file header = none →
      readAll file = .ok records →
      NewMatrixProcessor p records = (some ⟨M⟩, none) →
      (∃ row ∈ M, (0 : Int) ∈ row) →
      (HandleMatrix p readAll w r "multiply".toList).panicked = false ∧
      (HandleMatrix p readAll w r "multiply".toList).w.code = 200 ∧
      (HandleMatrix p readAll w r "multiply".toList).w.body = "0".toList ∧
      Header.get (HandleMatrix p readAll w r "multiply".toList).w.sentHeader "Warning".toList
        = "Possible integer overflow detected".toList ∧
      ∃ h, routeHandler p readAll "/multiply".toList = some h ∧
        h w r = HandleMatrix p readAll w r "multiply".toList) := by
  refine ⟨fun M hz => Multiply_zero p M hz, ?_⟩
  intro readAll w r file header records M hw hb hm hct hff hval hcsv hparse hzero
  have hmul : MatrixProcessor.Multiply p ⟨M⟩ = 0 := Multiply_zero p M hzero
  have hrun : HandleMatrix p readAll w r "multiply".toList
      = writeResult
          (w.setHeader "Warning".toList "Possible integer overflow detected".toList)
          (Itoa 0) := by
    rw [HandleMatrix_accepted p readAll w r _ file header records ⟨M⟩ hm hct hff hval hcsv
      hparse, dispatch_multiply, hmul, if_pos rfl]
  have hw2 : (w.setHeader "Warning".toList
      "Possible integer overflow detected".toList).wroteHeader = false := hw
  obtain ⟨h1, h2, h3, h4⟩ := writeResult_spec _ (Itoa 0) hw2
  have hpan : (HandleMatrix p readAll w r "multiply".toList).panicked = false := by
    rw [hrun]; exact h1
  refine ⟨hpan, ?_, ?_, ?_, _, rfl, ?_⟩
  · rw [hrun]; exact h2
  · rw [hrun, h3]
    show w.body ++ Itoa 0 = "0".toList
    rw [hb]; rfl
  · rw [hrun, h4]
    rw [header_get_set_of_ne _ _ _ _ (by decide)]
    exact header_get_set_self _ _ _
  · exact withRecovery_returned _ w r hpan

/-- Witness of C12: the upload "0,5" / "7,9" to the multiply operation. -/
theorem zero_factor_gives_zero_witness :
    (HandleMatrix .bits64 plainReadAll ResponseWriter.fresh
        (testRequest "0,5\n7,9".toList "zero.csv".toList) "multiply".toList).panicked = false ∧
    (HandleMatrix .bits64 plainReadAll ResponseWriter.fresh
        (testRequest "0,5\n7,9".toList "zero.csv".toList) "multiply".toList).w.code = 200 ∧
    (HandleMatrix .bits64 plainReadAll ResponseWriter.fresh
        (testRequest "0,5\n7,9".toList "zero.csv".toList) "multiply".toList).w.body
      = "0".toList ∧
    Header.get (HandleMatrix .bits64 plainReadAll ResponseWriter.fresh
        (testRequest "0,5\n7,9".toList "zero.csv".toList) "multiply".toList).w.sentHeader
        "Warning".toList
      = "Possible integer overflow detected".toList ∧
    ∃ h, routeHandler .bits64 plainReadAll "/multiply".toList = some h ∧
      h ResponseWriter.fresh (testRequest "0,5\n7,9".toList "zero.csv".toList)
        = HandleMatrix .bits64 plainReadAll ResponseWriter.fresh
            (testRequest "0,5\n7,9".toList "zero.csv".toList) "multiply".toList :=
  (zero_factor_gives_zero .bits64).2 plainReadAll ResponseWriter.fresh
    (testRequest "0,5\n7,9".toList "zero.csv".toList) "0,5\n7,9".toList
    (some ⟨"zero.csv".toList, 7⟩) (splitRecords "0,5\n7,9".toList) [[0, 5], [7, 9]]
    rfl rfl rfl (by decide) rfl (by decide) rfl (by decide) (by decide)

/-- C13: the zero-product signal is ambiguous. On either width of `int` there is a
square matrix of `int` values, none of them 0, whose product wraps to 0; at 64 bits
[[4294967296, 4294967296], [1, 1]] is one, and its upload to the multiply operation is
answered with body "0" and the `Warning` header, as for a matrix that holds a zero. -/
theorem zero_product_signal_ambiguous :
    (∀ p : Platform, ∃ M : List (List Int), IsSquare 2 M ∧ AllInRange p M ∧
      (∀ row ∈ M, (0 : Int) ∉ row) ∧ MatrixProcessor.Multiply p ⟨M⟩ = 0) ∧
    (IsSquare 2 overflowToZero64 ∧ AllInRange .bits64 overflowToZero64 ∧
      (∀ row ∈ overflowToZero64, (0 : Int) ∉ row) ∧
      exactProduct overflowToZero64 = 2 ^ 64 ∧
      MatrixProcessor.Multiply .bits64 ⟨overflowToZero64⟩ = 0) ∧
    ((HandleMatrix .bits64 plainReadAll ResponseWriter.fresh
        (testRequest "4294967296,4294967296\n1,1".toList "big.csv".toList)
        "multiply".toList).w.code = 200 ∧
      (HandleMatrix .bits64 plainReadAll ResponseWriter.fresh
        (testRequest "4294967296,4294967296\n1,1".toList "big.csv".toList)
        "multiply".toList).w.body = "0".toList ∧
      Header.get (HandleMatrix .bits64 plainReadAll ResponseWriter.fresh
        (testRequest "4294967296,4294967296\n1,1".toList "big.csv".toList)
        "multiply".toList).w.sentHeader "Warning".toList
        = "Possible integer overflow detected".toList) := by
  refine ⟨?_, by decide, ?_⟩
  · intro p
    cases p
    · exact ⟨overflowToZero32, by decide⟩
    · exact ⟨overflowToZero64, by decide⟩
  · decide

/-- C14: `ValidateFileUpload` returns nil exactly when the header is present, its size
is at most 5 * 1024 * 1024 and the lower-cased file name ends in ".csv" (that is, the
name ends in ".csv" with letters in either case); otherwise it returns the error of
the first violated rule, in the order missing file, oversized, wrong extension. -/
theorem validateFileUpload_first_violated_rule (file : GoString) (header : Option FileHeader) :
    (ValidateFileUpload file header = none ↔
      ∃ h, header = some h ∧ h.Size ≤ 5 * 1024 * 1024 ∧
        HasSuffix (ToLower h.Filename) ".csv".toList = true) ∧
    (∀ h, header = some h →
      (HasSuffix (ToLower h.Filename) ".csv".toList = true ↔ EndsInCsv h.Filename)) ∧
    (header = none →
      ValidateFileUpload file header = some ⟨"No file was uploaded".toList⟩) ∧
    (∀ h, header = some h → 5 * 1024 * 1024 < h.Size →
      ValidateFileUpload file header
        = some ⟨"File size exceeds maximum limit of 5MB".toList⟩) ∧
    (∀ h, header = some h → h.Size ≤ 5 * 1024 * 1024 →
      HasSuffix (ToLower h.Filename) ".csv".toList = false →
      ValidateFileUpload file header
        = some ⟨"Invalid file format. Only CSV files are accepted".toList⟩) := by
  refine ⟨?_, fun h _ => hasSuffix_csv_iff h.Filename, ?_, ?_, ?_⟩
  · cases header with
    | none => simp [ValidateFileUpload]
    | some h =>
      simp only [ValidateFileUpload, Option.some.injEq, exists_eq_left']
      by_cases hsize : h.Size > 5 * 1024 * 1024
      · rw [if_pos hsize]
        constructor
        · intro hc; cases hc
        · rintro ⟨hle, _⟩; omega
      · rw [if_neg hsize]
        by_cases hext : HasSuffix (ToLower h.Filename) ".csv".toList = true
        · rw [if_neg (not_not.2 hext)]
          exact ⟨fun _ => ⟨by omega, hext⟩, fun _ => rfl⟩
        · rw [if_pos hext]
          constructor
          · intro hc; cases hc
          · rintro ⟨_, hc⟩; exact absurd hc hext
  · intro hnone
    rw [hnone]
    rfl
  · intro h hh hsize
    rw [hh]
    simp only [ValidateFileUpload]
    rw [if_pos (by omega)]
  · intro h hh hsize hext
    rw [hh]
    simp only [ValidateFileUpload]
    rw [if_neg (by omega), if_pos (by rw [hext]; simp)]

/-- Witness of C14: a file of exactly 5 MiB named "DATA.CSV" is accepted, and an
oversized file named "big.txt" reports the size limit. -/
theorem validateFileUpload_first_violated_rule_witness :
    ValidateFileUpload [] (some ⟨"DATA.CSV".toList, 5 * 1024 * 1024⟩) = none ∧
    ValidateFileUpload [] (some ⟨"big.txt".toList, 5 * 1024 * 1024 + 1⟩)
      = some ⟨"File size exceeds maximum limit of 5MB".toList⟩ :=
  ⟨(validateFileUpload_first_violated_rule []
      (some ⟨"DATA.CSV".toList, 5 * 1024 * 1024⟩)).1.2 ⟨_, rfl, by decide, by decide⟩,
    (validateFileUpload_first_violated_rule []
      (some ⟨"big.txt".toList, 5 * 1024 * 1024 + 1⟩)).2.2.2.1 _ rfl (by decide)⟩

/-- C16: a request whose method is not POST is answered with status 405 for every
operation name. The outcome is `http.Error(w, "Only POST method is allowed", 405)`
followed by a return: it depends on nothing else of the request, on no CSV reader
and on no operation name. -/
theorem non_post_answers_405 (p : Platform) (readAll : CsvReadAll) (w : ResponseWriter)
    (r : Request) (operation : GoString)
    (hw : w.wroteHeader = false) (hm : r.Method ≠ "POST".toList) :
    HandleMatrix p readAll w r operation
      = ⟨httpError w "Only POST method is allowed".toList 405, false⟩ ∧
    (HandleMatrix p readAll w r operation).w.code = 405 ∧
    (HandleMatrix p readAll w r operation).panicked = false := by
  have hrun : HandleMatrix p readAll w r operation
      = ⟨httpError w "Only POST method is allowed".toList 405, false⟩ := by
    unfold HandleMatrix
    rw [if_pos hm]
  have h1 := httpError_unwritten w "Only POST method is allowed".toList 405 hw
  refine ⟨hrun, ?_, ?_⟩
  · rw [hrun]
    show (httpError w "Only POST method is allowed".toList 405).code = 405
    rw [ResponseWriter.code, if_pos h1.1, h1.2]
  · rw [hrun]

/-- Witness of C16: the request of the test "Echo Wrong Method". -/
theorem non_post_answers_405_witness :
    (HandleMatrix .bits64 plainReadAll ResponseWriter.fresh
        ⟨"GET".toList, [], .error "no multipart body".toList⟩ "echo".toList).w.code = 405 :=
  (non_post_answers_405 .bits64 plainReadAll ResponseWriter.fresh
    ⟨"GET".toList, [], .error "no multipart body".toList⟩ "echo".toList
    rfl (by decide)).2.1

/-- C17: when `NewMatrixProcessor` returns an error, `HandleMatrix` writes the 500
response and goes on to dispatch on the nil processor: for each of the five known
operation names the call ends in a panic, with status 500 already written; under
`withRecovery` the same call returns normally with status 500. -/
theorem rejected_records_fault_without_recovery (p : Platform) (readAll : CsvReadAll)
    (w : ResponseWriter) (r : Request) (file : GoString) (header : Option FileHeader)
    (records : List (List GoString))
    (hw : w.wroteHeader = false)
    (hm : r.Method = "POST".toList)
    (hct : HasPrefix r.ContentType "multipart/form-data".toList = true)
    (hff : r.FormFile = .ok (file, header))
    (hval : ValidateFileUpload file header = none)
    (hcsv : readAll file = .ok records)
    (hrej : (NewMatrixProcessor p records).2 ≠ none) :
    ∀ op ∈ knownOperations,
      HandleMatrix p readAll w r op
        = ⟨httpError w "Internal server error processing matrix".toList 500, true⟩ ∧
      (HandleMatrix p readAll w r op).panicked = true ∧
      (HandleMatrix p readAll w r op).w.code = 500 ∧
      ((withRecovery fun w r => HandleMatrix p readAll w r op) w r).panicked = false ∧
      ((withRecovery fun w r => HandleMatrix p readAll w r op) w r).w.code = 500 := by
  intro op hop
  have hrun := HandleMatrix_rejected p readAll w r op file header records hm hct hff hval hcsv
    hrej hop
  have h1 := httpError_unwritten w "Internal server error processing matrix".toList 500 hw
  have h2 := httpError_written
    (httpError w "Internal server error processing matrix".toList 500)
    "Internal server error".toList 500 h1.1
  refine ⟨hrun, by rw [hrun], ?_, ?_, ?_⟩
  · rw [hrun]
    show (httpError w "Internal server error processing matrix".toList 500).code = 500
    rw [ResponseWriter.code, if_pos h1.1, h1.2]
  · simp only [withRecovery, hrun, if_true]
  · simp only [withRecovery, hrun, if_true]
    rw [ResponseWriter.code, if_pos h2.1, h2.2, h1.2]

/-- Witness of C17 on the upload of the test "Echo Invalid Numbers", operation "sum". -/
theorem rejected_records_fault_without_recovery_witness :
    (HandleMatrix .bits64 plainReadAll ResponseWriter.fresh
        (testRequest "1,a\n3,4".toList "invalid.csv".toList) "sum".toList).panicked = true ∧
    ((withRecovery fun w r => HandleMatrix .bits64 plainReadAll w r "sum".toList)
        ResponseWriter.fresh (testRequest "1,a\n3,4".toList "invalid.csv".toList)).panicked
      = false :=
  ⟨(rejected_records_fault_without_recovery .bits64 plainReadAll ResponseWriter.fresh
      (testRequest "1,a\n3,4".toList "invalid.csv".toList) "1,a\n3,4".toList
      (some ⟨"invalid.csv".toList, 7⟩) (splitRecords "1,a\n3,4".toList)
      rfl rfl (by decide) rfl (by decide) rfl (by decide) "sum".toList (by decide)).2.1,
    (rejected_records_fault_without_recovery .bits64 plainReadAll ResponseWriter.fresh
      (testRequest "1,a\n3,4".toList "invalid.csv".toList) "1,a\n3,4".toList
      (some ⟨"invalid.csv".toList, 7⟩) (splitRecords "1,a\n3,4".toList)
      rfl rfl (by decide) rfl (by decide) rfl (by decide) "sum".toList (by decide)).2.2.2.1⟩

/-- C15: dispatch is correct on success. A request that passes the method,
content-type, file and upload checks and whose records parse to a matrix `M` is
answered, for each of the five operation names, with status 200 and content type
text/plain, the handler returning normally; the body is `Echo(M)`, `Invert(M)`,
`Flatten(M)`, the decimal rendering of `Sum(M)` and the decimal rendering of
`Multiply(M)` respectively. Each route `/name` is registered with the operation
`name`, and its handler gives the same outcome. -/
theorem dispatch_correct_on_success (p : Platform) (readAll : CsvReadAll) (w : ResponseWriter)
    (r : Request) (file : GoString) (header : Option FileHeader)
    (records : List (List GoString)) (M : List (List Int))
    (hw : w.wroteHeader = false) (hb : w.body = [])
    (hm : r.Method = "POST".toList)
    (hct : HasPrefix r.ContentType "multipart/form-data".toList = true)
    (hff : r.FormFile = .ok (file, header))
    (hval : ValidateFileUpload file header = none)
    (hcsv : readAll file = .ok records)
    (hparse : NewMatrixProcessor p records = (some ⟨M⟩, none)) :
    (∀ op ∈ knownOperations,
      (HandleMatrix p readAll w r op).panicked = false ∧
      (HandleMatrix p readAll w r op).w.code = 200 ∧
      Header.get (HandleMatrix p readAll w r op).w.sentHeader "Content-Type".toList
        = "text/plain".toList) ∧
    (HandleMatrix p readAll w r "echo".toList).w.body = MatrixProcessor.Echo ⟨M⟩ ∧
    MatrixProcessor.Invert ⟨M⟩ = some (HandleMatrix p readAll w r "invert".toList).w.body ∧
    (HandleMatrix p readAll w r "flatten".toList).w.body = MatrixProcessor.Flatten ⟨M⟩ ∧
    (HandleMatrix p readAll w r "sum".toList).w.body = Itoa (MatrixProcessor.Sum p ⟨M⟩) ∧
    (HandleMatrix p readAll w r "multiply".toList).w.body
      = Itoa (MatrixProcessor.Multiply p ⟨M⟩) ∧
    (∀ op ∈ knownOperations,
      routeHandler p readAll ('/' :: op)
        = some (withRecovery fun w r => HandleMatrix p readAll w r op) ∧
      (withRecovery fun w r => HandleMatrix p readAll w r op) w r
        = HandleMatrix p readAll w r op) := by
  have hrun : ∀ op, HandleMatrix p readAll w r op = dispatch p w (some ⟨M⟩) op := fun op =>
    HandleMatrix_accepted p readAll w r op file header records ⟨M⟩ hm hct hff hval hcsv hparse
  obtain ⟨_, hsq⟩ := NewMatrixProcessor_square p records M hparse
  have hinv : MatrixProcessor.Invert ⟨M⟩ = some (writeRows 0 (transposed M.length M) []) := by
    unfold MatrixProcessor.Invert
    rw [invertedMatrix_square M.length M hsq]
  have hwarn := warned_unwritten (MatrixProcessor.Multiply p ⟨M⟩ = 0) w "Warning".toList
    "Possible integer overflow detected".toList hw hb
  have hecho := writeResult_facts w (MatrixProcessor.Echo ⟨M⟩) hw hb
  have hinvert := writeResult_facts w (writeRows 0 (transposed M.length M) []) hw hb
  have hflatten := writeResult_facts w (MatrixProcessor.Flatten ⟨M⟩) hw hb
  have hsum := writeResult_facts w (Itoa (MatrixProcessor.Sum p ⟨M⟩)) hw hb
  have hmultiply := writeResult_facts _ (Itoa (MatrixProcessor.Multiply p ⟨M⟩))
    hwarn.1 hwarn.2
  have e1 : HandleMatrix p readAll w r "echo".toList
      = writeResult w (MatrixProcessor.Echo ⟨M⟩) := by rw [hrun, dispatch_echo]
  have e2 : HandleMatrix p readAll w r "invert".toList
      = writeResult w (writeRows 0 (transposed M.length M) []) := by
    rw [hrun, dispatch_invert, hinv]
  have e3 : HandleMatrix p readAll w r "flatten".toList
      = writeResult w (MatrixProcessor.Flatten ⟨M⟩) := by rw [hrun, dispatch_flatten]
  have e4 : HandleMatrix p readAll w r "sum".toList
      = writeResult w (Itoa (MatrixProcessor.Sum p ⟨M⟩)) := by rw [hrun, dispatch_sum]
  have e5 : HandleMatrix p readAll w r "multiply".toList
      = writeResult
          (if MatrixProcessor.Multiply p ⟨M⟩ = 0 then
            w.setHeader "Warning".toList "Possible integer overflow detected".toList
          else w)
          (Itoa (MatrixProcessor.Multiply p ⟨M⟩)) := by rw [hrun, dispatch_multiply]
  have hall : ∀ op ∈ knownOperations,
      (HandleMatrix p readAll w r op).panicked = false ∧
      (HandleMatrix p readAll w r op).w.code = 200 ∧
      Header.get (HandleMatrix p readAll w r op).w.sentHeader "Content-Type".toList
        = "text/plain".toList := by
    intro op hop
    simp only [knownOperations, List.mem_cons, List.mem_singleton, List.not_mem_nil,
      or_false] at hop
    rcases hop with h | h | h | h | h <;> subst h
    · rw [e1]; exact ⟨hecho.1, hecho.2.1, hecho.2.2.2⟩
    · rw [e2]; exact ⟨hinvert.1, hinvert.2.1, hinvert.2.2.2⟩
    · rw [e3]; exact ⟨hflatten.1, hflatten.2.1, hflatten.2.2.2⟩
    · rw [e4]; exact ⟨hsum.1, hsum.2.1, hsum.2.2.2⟩
    · rw [e5]; exact ⟨hmultiply.1, hmultiply.2.1, hmultiply.2.2.2⟩
  refine ⟨hall, ?_, ?_, ?_, ?_, ?_, ?_⟩
  · rw [e1]; exact hecho.2.2.1
  · rw [e2, hinvert.2.2.1]; exact hinv
  · rw [e3]; exact hflatten.2.2.1
  · rw [e4]; exact hsum.2.2.1
  · rw [e5]; exact hmultiply.2.2.1
  · intro op hop
    refine ⟨?_, withRecovery_returned _ w r (hall op hop).1⟩
    simp only [knownOperations, List.mem_cons, List.mem_singleton, List.not_mem_nil,
      or_false] at hop
    rcases hop with h | h | h | h | h <;> subst h <;> rfl

/-- Witness of C15 on the upload of the success cases of the test suite. -/
theorem dispatch_correct_on_success_witness :
    (HandleMatrix .bits64 plainReadAll ResponseWriter.fresh
        (testRequest "1,2\n3,4".toList "valid.csv".toList) "flatten".toList).w.body
      = MatrixProcessor.Flatten ⟨[[1, 2], [3, 4]]⟩ :=
  (dispatch_correct_on_success .bits64 plainReadAll ResponseWriter.fresh
    (testRequest "1,2\n3,4".toList "valid.csv".toList) "1,2\n3,4".toList
    (some ⟨"valid.csv".toList, 7⟩) (splitRecords "1,2\n3,4".toList) [[1, 2], [3, 4]]
    rfl rfl rfl (by decide) rfl (by decide) rfl (by decide)).2.2.2.1

/-- C18: no operation faults on a constructed processor. For a processor returned
without error by `NewMatrixProcessor`, every index `mp.matrix[j][i]` that `Invert`
reads, for `i` and `j` below `len(mp.matrix)`, is in bounds, so `Invert` returns a
string; `Echo`, `Flatten`, `Sum` and `Multiply` only range over the rows and are total;
and the dispatch of each of the five operations on it returns without a panic. -/
theorem constructed_processor_never_faults (p : Platform) (records : List (List GoString))
    (mp : MatrixProcessor) (h : NewMatrixProcessor p records = (some mp, none)) :
    (∀ i j, i < mp.matrix.length → j < mp.matrix.length →
      ∃ row x, mp.matrix[j]? = some row ∧ row[i]? = some x) ∧
    (∀ row ∈ mp.matrix, row.length = mp.matrix.length) ∧
    (∃ s, mp.Invert = some s) ∧
    (∀ (w : ResponseWriter) (op : GoString), op ∈ knownOperations →
      (dispatch p w (some mp) op).panicked = false) := by
  obtain ⟨M⟩ := mp
  obtain ⟨_, hsq⟩ := NewMatrixProcessor_square p records M h
  have hinv : MatrixProcessor.Invert ⟨M⟩ = some (writeRows 0 (transposed M.length M) []) := by
    unfold MatrixProcessor.Invert
    rw [invertedMatrix_square M.length M hsq]
  refine ⟨?_, hsq.2, ⟨_, hinv⟩, ?_⟩
  · intro i j hi hj
    have hi1 : i < M.length := hi
    have hj1 : j < M.length := hj
    have hrow : (M[j]).length = M.length := hsq.2 _ (List.getElem_mem hj1)
    have hi2 : i < (M[j]).length := by omega
    exact ⟨M[j], (M[j])[i], List.getElem?_eq_getElem hj1, List.getElem?_eq_getElem hi2⟩
  · intro w op hop
    simp only [knownOperations, List.mem_cons, List.mem_singleton, List.not_mem_nil,
      or_false] at hop
    rcases hop with h | h | h | h | h <;> subst h
    · rfl
    · rw [dispatch_invert, hinv]; rfl
    · rfl
    · rfl
    · rfl

/-- Witness of C18 on the records of the test suite. -/
theorem constructed_processor_never_faults_witness :
    ∃ s, MatrixProcessor.Invert ⟨[[1, 2], [3, 4]]⟩ = some s :=
  (constructed_processor_never_faults .bits64 (splitRecords "1,2\n3,4".toList)
    ⟨[[1, 2], [3, 4]]⟩ (by decide)).2.2.1

/-- C19: for a square matrix, `Flatten` is `Echo` with every newline replaced by a
comma. -/
theorem flatten_is_echo_without_row_boundaries (n : Nat) (M : List (List Int))
    (hsq : IsSquare n M) :
    MatrixProcessor.Flatten ⟨M⟩ = ReplaceAll (MatrixProcessor.Echo ⟨M⟩) '\n' ',' := by
  have hecho : MatrixProcessor.Echo ⟨M⟩ = Join (M.map rowLine) ['\n'] := writeRows_zero M
  rw [hecho, ReplaceAll_Join '\n' ',' _ (by
    intro x hx
    rcases List.mem_map.1 hx with ⟨row, _, rfl⟩
    exact rowLine_no_newline row), Flatten_eq_Join]
  have hrows : ∀ l ∈ M.map (fun row => row.map Itoa), l ≠ [] := by
    intro l hl
    rcases List.mem_map.1 hl with ⟨row, hrow, rfl⟩
    have hlen := hsq.2 row hrow
    have hn : 1 ≤ n := by
      have h1 : 1 ≤ M.length := List.length_pos_of_mem hrow
      rw [hsq.1] at h1
      exact h1
    intro hc
    have : (row.map Itoa).length = 0 := by rw [hc]; rfl
    rw [List.length_map] at this
    omega
  have hjj := Join_Join ",".toList (M.map fun row => row.map Itoa) hrows
  rw [List.map_map] at hjj
  rw [← List.map_flatten] at hjj
  exact hjj.symm

/-- Witness of C19 on the matrix of the test suite. -/
theorem flatten_is_echo_without_row_boundaries_witness :
    IsSquare 2 [[1, 2], [3, 4]] ∧
      MatrixProcessor.Flatten ⟨[[1, 2], [3, 4]]⟩
        = ReplaceAll (MatrixProcessor.Echo ⟨[[1, 2], [3, 4]]⟩) '\n' ',' :=
  ⟨by decide, flatten_is_echo_without_row_boundaries 2 [[1, 2], [3, 4]] (by decide)⟩

/-! ## The cases of the test suite (main_test.go), evaluated on the model -/

theorem test_echo_success :
    ((withRecovery fun w r => HandleMatrix .bits64 plainReadAll w r "echo".toList)
      ResponseWriter.fresh (testRequest "1,2\n3,4".toList "valid.csv".toList)).w.body
        = "1,2\n3,4".toList := by
  decide

theorem test_invert_success :
    ((withRecovery fun w r => HandleMatrix .bits64 plainReadAll w r "invert".toList)
      ResponseWriter.fresh (testRequest "1,2\n3,4".toList "valid.csv".toList)).w.body
        = "1,3\n2,4".toList := by
  decide

theorem test_flatten_success :
    ((withRecovery fun w r => HandleMatrix .bits64 plainReadAll w r "flatten".toList)
      ResponseWriter.fresh (testRequest "1,2\n3,4".toList "valid.csv".toList)).w.body
        = "1,2,3,4".toList := by
  decide

set_option maxRecDepth 8000 in
theorem test_sum_success :
    ((withRecovery fun w r => HandleMatrix .bits64 plainReadAll w r "sum".toList)
      ResponseWriter.fresh (testRequest "1,2\n3,4".toList "valid.csv".toList)).w.body
        = "10".toList := by
  decide

set_option maxRecDepth 8000 in
theorem test_multiply_success :
    ((withRecovery fun w r => HandleMatrix .bits64 plainReadAll w r "multiply".toList)
      ResponseWriter.fresh (testRequest "1,2\n3,4".toList "valid.csv".toList)).w.body
        = "24".toList := by
  decide

theorem test_echo_non_square :
    ((withRecovery fun w r => HandleMatrix .bits64 plainReadAll w r "echo".toList)
      ResponseWriter.fresh (testRequest "1,2\n3,4,5".toList "invalid.csv".toList)).w.code
        = 500 := by
  decide

theorem test_echo_invalid_numbers :
    ((withRecovery fun w r => HandleMatrix .bits64 plainReadAll w r "echo".toList)
      ResponseWriter.fresh (testRequest "1,a\n3,4".toList "invalid.csv".toList)).w.code
        = 500 := by
  decide

theorem test_echo_empty_matrix :
    ((withRecovery fun w r => HandleMatrix .bits64 plainReadAll w r "echo".toList)
      ResponseWriter.fresh (testRequest [] "empty.csv".toList)).w.code = 500 := by
  decide

theorem test_echo_wrong_file_type :
    ((withRecovery fun w r => HandleMatrix .bits64 plainReadAll w r "echo".toList)
      ResponseWriter.fresh (testRequest "1,2\n3,4".toList "file.txt".toList)).w.code
        = 400 := by
  decide

end MatrixRoutes
